import Mathlib

/-!
# Client registry middlewares (`src/middlewares/ClientMiddleware.js`)

A shallow embedding of the four request handlers
`AddClientMiddleware`, `GetAllClientsMiddleware`, `GetClientByCNPJMiddleware`
and `DeleteClientMiddleware`, together with the collaborators they call
(the Oracle table `CLIENTES_API`, the response cache, the secret cache and the
secret encoder), followed by theorems about them.

Conventions of the embedding:

* a request field (`req.body.cnpj`, `req.params.cnpj`) is `Option String`:
  absent, or a string (JSON values of other types are outside the embedding);
* a value found in the response cache is an array or an object, hence truthy:
  the test `if (cached)` is a match on `some`;
* every handler is a function from the world before the call to the response
  and the world after it; `await` points are sequential;
* a `Fault` says which call on the store throws during the handler; a throw
  inside `try` lands in the `catch` branch, which answers 500;
* the secret encoder is a parameter: the `n`-th draw of the process is
  `generateSecretWithSalt n`, encrypted as `encrypt n _`.
-/

namespace ClientMiddleware

/-! ## Strings -/

/-- White space and line terminators removed by `String.prototype.trim`. -/
def isJsWhiteSpace (c : Char) : Bool :=
  let n := c.toNat
  n == 0x09 || n == 0x0A || n == 0x0B || n == 0x0C || n == 0x0D || n == 0x20 ||
  n == 0xA0 || n == 0x1680 || (0x2000 ≤ n && n ≤ 0x200A) || n == 0x2028 ||
  n == 0x2029 || n == 0x202F || n == 0x205F || n == 0x3000 || n == 0xFEFF

/-- Characters left once the white space at both ends is dropped. -/
def trimChars (l : List Char) : List Char :=
  ((l.dropWhile isJsWhiteSpace).reverse.dropWhile isJsWhiteSpace).reverse

/-- The method `s.trim()`. -/
def trim (s : String) : String := ⟨trimChars s.data⟩

/-- Truthiness test `!v` on a request field: absent or the empty string. -/
def falsy (v : Option String) : Bool :=
  match v with
  | none => true
  | some s => decide (s = "")

/-! ## Data -/

/-- A row of table `CLIENTES_API (CNPJ, NOME, SECRET_ENC)`. -/
structure Row where
  cnpj : String
  nome : String
  secret_enc : String
deriving DecidableEq

/-- The object `{ cnpj, nome }` sent to callers. -/
structure ClientView where
  cnpj : String
  nome : String
deriving DecidableEq

/-- What the handlers put in the response cache: the formatted list of
`GetAllClientsMiddleware` or the single object of `GetClientByCNPJMiddleware`. -/
inductive CacheValue where
  | list (clients : List ClientView)
  | single (client : ClientView)
deriving DecidableEq

/-- JSON bodies sent by the handlers: `{ error: msg }`,
`{ success: true, token }`, `{ success: true, cnpj }`, and a cached or freshly
formatted value sent as it is. -/
inductive Body where
  | error (msg : String)
  | registered (token : String)
  | deleted (cnpj : String)
  | json (value : CacheValue)
deriving DecidableEq

/-- The pair `res.status(..).json(..)`. -/
structure Response where
  status : Nat
  body : Body
deriving DecidableEq

/-- The body of `POST`: `req.body.cnpj` and `req.body.nome`. -/
structure ReqBody where
  cnpj : Option String
  nome : Option String
deriving DecidableEq

/-- Field access `req.body[field]`. -/
def ReqBody.get (b : ReqBody) (field : String) : Option String :=
  if field = "cnpj" then b.cnpj else if field = "nome" then b.nome else none

/-- The call on the store that throws during one handler, if any:
`pool.getConnection()`, the first `conn.execute`, the second `conn.execute`,
or `conn.close()`. A fault on a call the handler does not reach has no effect. -/
inductive Fault where
  | none
  | getConnection
  | execute1
  | execute2
  | close
deriving DecidableEq

/-- The imports of `../security/Encoder.js`, as functions of the number of
draws made so far in the process. -/
structure Encoder where
  generateSecretWithSalt : Nat → String
  encrypt : Nat → String → String

/-- Everything the handlers read or write. -/
structure World where
  rows : List Row
  cache : List (String × CacheValue)
  secrets : List (String × String)
  openConns : Nat
  draws : Nat
deriving DecidableEq

/-- Empty table, empty caches, no connection open, no secret drawn. -/
def World.init : World := ⟨[], [], [], 0, 0⟩

/-! ## Collaborators -/

/-- Modelled from the spec: `getCache` of `utils/DynamicCache.js`
(ResponseCache `get(key) → value|absent`). -/
def getCache (key : String) (c : List (String × CacheValue)) : Option CacheValue :=
  (c.find? (fun e => decide (e.1 = key))).map Prod.snd

/-- Modelled from the spec: `invalidateCache` of `utils/DynamicCache.js`
(after `invalidate(key)` the next `get(key)` is absent). -/
def invalidateCache (key : String) (c : List (String × CacheValue)) :
    List (String × CacheValue) :=
  c.filter (fun e => decide (e.1 ≠ key))

/-- Modelled from the spec: `setCache` of `utils/DynamicCache.js`
(ResponseCache `set(key, value)`). -/
def setCache (key : String) (v : CacheValue) (c : List (String × CacheValue)) :
    List (String × CacheValue) :=
  (key, v) :: invalidateCache key c

/-- Modelled from the spec: the lookup side of `utils/SecretsCache.js`
(SecretIndex, a mapping from `secretEncrypted` to `nome`). -/
def secretOwner (secret_enc : String) (s : List (String × String)) : Option String :=
  (s.find? (fun e => decide (e.1 = secret_enc))).map Prod.snd

/-- Modelled from the spec: `removeClientFromSecretCache` of
`utils/SecretsCache.js` (SecretIndex `remove`, a no-op on an absent key). -/
def removeClientFromSecretCache (secret_enc : String) (s : List (String × String)) :
    List (String × String) :=
  s.filter (fun e => decide (e.1 ≠ secret_enc))

/-- Modelled from the spec: `addClientToSecretCache` of `utils/SecretsCache.js`
(SecretIndex `add(secretEncrypted, nome)`). -/
def addClientToSecretCache (secret_enc nome : String) (s : List (String × String)) :
    List (String × String) :=
  (secret_enc, nome) :: removeClientFromSecretCache secret_enc s

/-- Modelled from the spec: the ClientStore behind `pool` of
`Client/OracleCliente.js`, here the rows matched by `WHERE CNPJ = :cnpj`. -/
def whereCnpj (cnpj : String) (rows : List Row) : List Row :=
  rows.filter (fun r => decide (r.cnpj = cnpj))

/-- Modelled from the spec: the ClientStore statement
`SELECT CNPJ, NOME FROM CLIENTES_API ORDER BY NOME`: the projected rows, by
`nome` ascending, rows of equal `nome` in insertion order. -/
def selectAllOrderByNome (rows : List Row) : List (String × String) :=
  (rows.map (fun r => (r.cnpj, r.nome))).insertionSort (fun a b => a.2 ≤ b.2)

/-- Modelled from the spec: the ClientStore statement
`INSERT INTO CLIENTES_API (CNPJ, NOME, SECRET_ENC) VALUES (..)`, committed. -/
def insertRow (r : Row) (rows : List Row) : List Row := rows ++ [r]

/-- Modelled from the spec: the ClientStore statement
`DELETE FROM CLIENTES_API WHERE CNPJ = :cnpj`, committed. -/
def deleteWhereCnpj (cnpj : String) (rows : List Row) : List Row :=
  rows.filter (fun r => decide (r.cnpj ≠ cnpj))

/-- A successful `pool.getConnection()`. -/
def World.acquire (w : World) : World := { w with openConns := w.openConns + 1 }

/-- A successful `conn.close()`. -/
def World.release (w : World) : World := { w with openConns := w.openConns - 1 }

/-! ## Handlers -/

/-- The constant `requiredFields` of `AddClientMiddleware`. -/
def requiredFields : List String := ["cnpj", "nome"]

/-- Handler `AddClientMiddleware` (lines 9-54). -/
def AddClientMiddleware (enc : Encoder) (fault : Fault) (body : ReqBody) (w : World) :
    Response × World :=
  let missing := requiredFields.filter (fun field => falsy (body.get field))
  if missing.length > 0 then
    (⟨400, .error ("Campos obrigatórios ausentes: " ++ ", ".intercalate missing)⟩, w)
  else
    let cnpj := trim (body.cnpj.getD "")
    let nome := trim (body.nome.getD "")
    let secret := enc.generateSecretWithSalt w.draws
    let secret_enc := enc.encrypt w.draws secret
    let w1 : World := { w with draws := w.draws + 1 }
    let err : Response := ⟨500, .error "Erro interno ao registrar cliente"⟩
    if fault = .getConnection then (err, w1)
    else
      let w2 := w1.acquire
      if fault = .execute1 then (err, w2)
      else if (whereCnpj cnpj w2.rows).length > 0 then
        if fault = .close then (err, w2)
        else (⟨409, .error "Cliente já existente"⟩, w2.release)
      else if fault = .execute2 then (err, w2)
      else
        let w3 : World := { w2 with rows := insertRow ⟨cnpj, nome, secret_enc⟩ w2.rows }
        let w4 : World := { w3 with secrets := addClientToSecretCache secret_enc nome w3.secrets }
        let w5 : World := { w4 with cache := invalidateCache "CLIENTES:ALL" w4.cache }
        let w6 : World := { w5 with cache := invalidateCache ("CLIENTES:" ++ cnpj) w5.cache }
        if fault = .close then (err, w6)
        else (⟨201, .registered secret⟩, w6.release)

/-- Handler `GetAllClientsMiddleware` (lines 56-78). -/
def GetAllClientsMiddleware (fault : Fault) (w : World) : Response × World :=
  let cacheKey := "CLIENTES:ALL"
  match getCache cacheKey w.cache with
  | some cached => (⟨200, .json cached⟩, w)
  | none =>
    let err : Response := ⟨500, .error "Erro ao obter clientes"⟩
    if fault = .getConnection then (err, w)
    else
      let w1 := w.acquire
      if fault = .execute1 then (err, w1)
      else
        let result := selectAllOrderByNome w1.rows
        if fault = .close then (err, w1)
        else
          let w2 := w1.release
          let formatted := result.map (fun r => (⟨r.1, r.2⟩ : ClientView))
          let w3 : World := { w2 with cache := setCache cacheKey (.list formatted) w2.cache }
          (⟨200, .json (.list formatted)⟩, w3)

/-- Handler `GetClientByCNPJMiddleware` (lines 80-110). -/
def GetClientByCNPJMiddleware (fault : Fault) (param : Option String) (w : World) :
    Response × World :=
  if falsy param then (⟨400, .error "CNPJ não informado"⟩, w)
  else
    let cnpj := param.getD ""
    let cacheKey := "CLIENTES:" ++ cnpj
    match getCache cacheKey w.cache with
    | some cached => (⟨200, .json cached⟩, w)
    | none =>
      let err : Response := ⟨500, .error "Erro ao buscar cliente"⟩
      if fault = .getConnection then (err, w)
      else
        let w1 := w.acquire
        if fault = .execute1 then (err, w1)
        else
          let result := (whereCnpj cnpj w1.rows).map (fun r => (r.cnpj, r.nome))
          if fault = .close then (err, w1)
          else
            let w2 := w1.release
            match result with
            | [] => (⟨404, .error "Cliente não encontrado"⟩, w2)
            | row :: _ =>
              let response : ClientView := ⟨row.1, row.2⟩
              let w3 : World := { w2 with cache := setCache cacheKey (.single response) w2.cache }
              (⟨200, .json (.single response)⟩, w3)

/-- Handler `DeleteClientMiddleware` (lines 112-148). -/
def DeleteClientMiddleware (fault : Fault) (param : Option String) (w : World) :
    Response × World :=
  if falsy param then (⟨400, .error "CNPJ não informado"⟩, w)
  else
    let cnpj := param.getD ""
    let err : Response := ⟨500, .error "Erro ao excluir cliente"⟩
    if fault = .getConnection then (err, w)
    else
      let w1 := w.acquire
      if fault = .execute1 then (err, w1)
      else
        match (whereCnpj cnpj w1.rows).map (fun r => r.secret_enc) with
        | [] =>
          if fault = .close then (err, w1)
          else (⟨404, .error "Cliente não encontrado para exclusão"⟩, w1.release)
        | secret_enc :: _ =>
          if fault = .execute2 then (err, w1)
          else
            let w2 : World := { w1 with rows := deleteWhereCnpj cnpj w1.rows }
            let w3 : World := { w2 with cache := invalidateCache "CLIENTES:ALL" w2.cache }
            let w4 : World := { w3 with cache := invalidateCache ("CLIENTES:" ++ cnpj) w3.cache }
            let w5 : World := { w4 with secrets := removeClientFromSecretCache secret_enc w4.secrets }
            if fault = .close then (err, w5)
            else (⟨200, .deleted cnpj⟩, w5.release)

/-! ## Sequences of calls -/

/-- One request to the registry. -/
inductive Call where
  | register (body : ReqBody)
  | listAll
  | getByCNPJ (cnpj : Option String)
  | delete (cnpj : Option String)
deriving DecidableEq

/-- Serve one request under the given fault. -/
def step (enc : Encoder) (w : World) (c : Call × Fault) : Response × World :=
  match c.1 with
  | .register body => AddClientMiddleware enc c.2 body w
  | .listAll => GetAllClientsMiddleware c.2 w
  | .getByCNPJ cnpj => GetClientByCNPJMiddleware c.2 cnpj w
  | .delete cnpj => DeleteClientMiddleware c.2 cnpj w

/-- Serve the requests one after the other; the responses in order and the
final world. -/
def run (enc : Encoder) (w : World) : List (Call × Fault) → List Response × World
  | [] => ([], w)
  | c :: cs =>
    let r := step enc w c
    let rest := run enc r.2 cs
    (r.1 :: rest.1, rest.2)

/-- An encoder used to evaluate the handlers on concrete requests. -/
def sampleEncoder : Encoder :=
  ⟨fun n => ⟨List.replicate (n + 1) 's'⟩, fun _ s => "enc:" ++ s⟩

/-- A second encoder, with other tokens and other encrypted forms. -/
def otherEncoder : Encoder :=
  ⟨fun n => ⟨List.replicate (n + 2) 't'⟩, fun _ s => "key:" ++ s⟩

/-! ## Observations -/

/-- The columns `CNPJ` and `NOME` of a row. -/
def Row.view (r : Row) : String × String := (r.cnpj, r.nome)

/-- The part of the world that does not hold a secret: the columns `CNPJ` and
`NOME` of the table, the response cache, the connections and the number of
draws. -/
def World.public (w : World) :
    List (String × String) × List (String × CacheValue) × Nat × Nat :=
  (w.rows.map Row.view, w.cache, w.openConns, w.draws)

/-- Two responses that are equal, or are both a 201 carrying a token. -/
def sameUpToToken (r1 r2 : Response) : Prop :=
  r1 = r2 ∨ ∃ t1 t2, r1 = ⟨201, .registered t1⟩ ∧ r2 = ⟨201, .registered t2⟩

/-- The requests served by `GetAllClientsMiddleware` and
`GetClientByCNPJMiddleware`. -/
def Call.isRead : Call → Bool
  | .listAll => true
  | .getByCNPJ _ => true
  | _ => false

/-- The encrypted secret of the `n`-th draw: `encrypt(generateSecretWithSalt())`. -/
def Encoder.encryptedAt (enc : Encoder) (n : Nat) : String :=
  enc.encrypt n (enc.generateSecretWithSalt n)

/-- The secret index agrees with the table: every row holds the encrypted
secret of an earlier draw, rows are told apart by their encrypted secret and
by their cnpj, and the index maps `secret_enc` to `nome` exactly for the rows
of the table. -/
def TracksStore (enc : Encoder) (w : World) : Prop :=
  (∀ r ∈ w.rows, ∃ n, n < w.draws ∧ r.secret_enc = enc.encryptedAt n) ∧
  (∀ r1 ∈ w.rows, ∀ r2 ∈ w.rows, r1.secret_enc = r2.secret_enc → r1 = r2) ∧
  (∀ r1 ∈ w.rows, ∀ r2 ∈ w.rows, r1.cnpj = r2.cnpj → r1 = r2) ∧
  (∀ e n, secretOwner e w.secrets = some n ↔ ∃ r ∈ w.rows, r.secret_enc = e ∧ r.nome = n)

/-- The per-client cache entries agree with the table: rows are told apart by
their cnpj, and an entry under the key of a cnpj other than `"ALL"` is the
object built from a row of that cnpj. -/
def CacheCoherent (w : World) : Prop :=
  (∀ r1 ∈ w.rows, ∀ r2 ∈ w.rows, r1.cnpj = r2.cnpj → r1 = r2) ∧
  (∀ k v, k ≠ "ALL" → getCache ("CLIENTES:" ++ k) w.cache = some v →
    ∃ r ∈ w.rows, r.cnpj = k ∧ v = .single ⟨r.cnpj, r.nome⟩)

/-- What reads may see of a deleted cnpj `p`: no row, no entry under its key,
and under the key of the list nothing but a list without `p`. -/
def DeletedView (p : String) (w : World) : Prop :=
  (∀ r ∈ w.rows, r.cnpj ≠ p) ∧ getCache ("CLIENTES:" ++ p) w.cache = none ∧
  (∀ v, getCache "CLIENTES:ALL" w.cache = some v →
    ∃ l, v = .list l ∧ ∀ x ∈ l, x.cnpj ≠ p)

/-! ## Basic facts -/

theorem key_inj (a b : String) : "CLIENTES:" ++ a = "CLIENTES:" ++ b ↔ a = b := by
  constructor
  · intro h
    have h2 := congrArg String.data h
    simp only [String.data_append, List.append_cancel_left_eq] at h2
    exact String.ext h2
  · rintro rfl; rfl

theorem key_all (c : String) : "CLIENTES:" ++ c = "CLIENTES:ALL" ↔ c = "ALL" :=
  key_inj c "ALL"

theorem getCache_invalidate_self (k : String) (c : List (String × CacheValue)) :
    getCache k (invalidateCache k c) = none := by
  induction c with
  | nil => rfl
  | cons e c ih =>
    unfold getCache invalidateCache at ih ⊢
    by_cases h : e.1 = k
    · rw [List.filter_cons_of_neg (by simp [h])]
      exact ih
    · rw [List.filter_cons_of_pos (by simp [h]), List.find?_cons_of_neg _ (by simp [h])]
      exact ih

theorem getCache_invalidate_other (k k2 : String) (hk : k2 ≠ k)
    (c : List (String × CacheValue)) :
    getCache k (invalidateCache k2 c) = getCache k c := by
  induction c with
  | nil => rfl
  | cons e c ih =>
    unfold getCache invalidateCache at ih ⊢
    by_cases h : e.1 = k2
    · have h3 : ¬ e.1 = k := fun h4 => hk (h.symm.trans h4)
      rw [List.filter_cons_of_neg (by simp [h]), List.find?_cons_of_neg _ (by simp [h3])]
      exact ih
    · rw [List.filter_cons_of_pos (by simp [h])]
      by_cases h3 : e.1 = k
      · rw [List.find?_cons_of_pos _ (by simp [h3]), List.find?_cons_of_pos _ (by simp [h3])]
      · rw [List.find?_cons_of_neg _ (by simp [h3]), List.find?_cons_of_neg _ (by simp [h3])]
        exact ih

theorem getCache_setCache_self (k : String) (v : CacheValue) (c : List (String × CacheValue)) :
    getCache k (setCache k v c) = some v := by
  simp [getCache, setCache, List.find?_cons]

theorem getCache_setCache_other (k k2 : String) (hk : k2 ≠ k) (v : CacheValue)
    (c : List (String × CacheValue)) :
    getCache k (setCache k2 v c) = getCache k c := by
  have h := getCache_invalidate_other k k2 hk c
  unfold setCache
  unfold getCache at h ⊢
  rw [List.find?_cons_of_neg _ (by simp [hk])]
  exact h

/-- The list `missing` of `AddClientMiddleware`, case by case. -/
theorem missing_eq (body : ReqBody) :
    requiredFields.filter (fun field => falsy (body.get field)) =
      (if falsy body.cnpj then ["cnpj"] else []) ++ (if falsy body.nome then ["nome"] else []) := by
  have h1 : body.get "cnpj" = body.cnpj := by simp [ReqBody.get]
  have h2 : body.get "nome" = body.nome := by simp [ReqBody.get]
  simp only [requiredFields, List.filter_cons, List.filter_nil, h1, h2]
  cases falsy body.cnpj <;> cases falsy body.nome <;> rfl

theorem missing_length_pos (body : ReqBody) :
    (requiredFields.filter (fun field => falsy (body.get field))).length > 0 ↔
      (falsy body.cnpj = true ∨ falsy body.nome = true) := by
  rw [missing_eq]
  cases falsy body.cnpj <;> cases falsy body.nome <;> simp

/-- The handler on a body that passes the check of required fields. -/
theorem AddClientMiddleware_present (enc : Encoder) (fault : Fault) (c n : String) (w : World)
    (hc : c ≠ "") (hn : n ≠ "") :
    AddClientMiddleware enc fault ⟨some c, some n⟩ w =
      if fault = .getConnection then
        (⟨500, .error "Erro interno ao registrar cliente"⟩, { w with draws := w.draws + 1 })
      else if fault = .execute1 then
        (⟨500, .error "Erro interno ao registrar cliente"⟩,
          { w with draws := w.draws + 1, openConns := w.openConns + 1 })
      else if (whereCnpj (trim c) w.rows).length > 0 then
        if fault = .close then
          (⟨500, .error "Erro interno ao registrar cliente"⟩,
            { w with draws := w.draws + 1, openConns := w.openConns + 1 })
        else (⟨409, .error "Cliente já existente"⟩, { w with draws := w.draws + 1 })
      else if fault = .execute2 then
        (⟨500, .error "Erro interno ao registrar cliente"⟩,
          { w with draws := w.draws + 1, openConns := w.openConns + 1 })
      else if fault = .close then
        (⟨500, .error "Erro interno ao registrar cliente"⟩,
          { rows := w.rows ++ [⟨trim c, trim n,
              enc.encrypt w.draws (enc.generateSecretWithSalt w.draws)⟩],
            cache := invalidateCache ("CLIENTES:" ++ trim c)
              (invalidateCache "CLIENTES:ALL" w.cache),
            secrets := addClientToSecretCache
              (enc.encrypt w.draws (enc.generateSecretWithSalt w.draws)) (trim n) w.secrets,
            openConns := w.openConns + 1,
            draws := w.draws + 1 })
      else
        (⟨201, .registered (enc.generateSecretWithSalt w.draws)⟩,
          { rows := w.rows ++ [⟨trim c, trim n,
              enc.encrypt w.draws (enc.generateSecretWithSalt w.draws)⟩],
            cache := invalidateCache ("CLIENTES:" ++ trim c)
              (invalidateCache "CLIENTES:ALL" w.cache),
            secrets := addClientToSecretCache
              (enc.encrypt w.draws (enc.generateSecretWithSalt w.draws)) (trim n) w.secrets,
            openConns := w.openConns,
            draws := w.draws + 1 }) := by
  have hv : ¬ ((requiredFields.filter
      (fun field => falsy ((⟨some c, some n⟩ : ReqBody).get field))).length > 0) := by
    rw [missing_length_pos]
    simp [falsy, hc, hn]
  unfold AddClientMiddleware
  simp only [hv, if_false, Option.getD_some, World.acquire, World.release, insertRow,
    Nat.add_sub_cancel]

/-- The handler on a body with a required field absent or empty. -/
theorem AddClientMiddleware_missing (enc : Encoder) (fault : Fault) (body : ReqBody) (w : World)
    (h : falsy body.cnpj = true ∨ falsy body.nome = true) :
    AddClientMiddleware enc fault body w =
      (⟨400, .error ("Campos obrigatórios ausentes: " ++ ", ".intercalate
        ((if falsy body.cnpj then ["cnpj"] else []) ++
          (if falsy body.nome then ["nome"] else [])))⟩, w) := by
  have hv := (missing_length_pos body).2 h
  rw [missing_eq] at hv
  unfold AddClientMiddleware
  simp only [missing_eq, hv, if_true]

/-- A body passes the check of required fields exactly when both fields are
non-empty strings. -/
theorem not_falsy_iff (body : ReqBody) :
    ¬ (falsy body.cnpj = true ∨ falsy body.nome = true) ↔
      ∃ c n, body = ⟨some c, some n⟩ ∧ c ≠ "" ∧ n ≠ "" := by
  rcases body with ⟨_ | c, _ | n⟩ <;> simp [falsy]
  constructor
  · intro h
    exact ⟨c, n, ⟨rfl, rfl⟩, h⟩
  · rintro ⟨_, _, ⟨rfl, rfl⟩, h⟩
    exact h

theorem getCache_invalidate_twice (k k2 : String) (c : List (String × CacheValue)) :
    getCache k (invalidateCache k2 (invalidateCache k c)) = none := by
  by_cases h : k2 = k
  · subst h
    exact getCache_invalidate_self _ _
  · rw [getCache_invalidate_other k k2 h]
    exact getCache_invalidate_self _ _

/-- What a 201 answer of `AddClientMiddleware` says about the call. -/
theorem AddClientMiddleware_201 (enc : Encoder) (fault : Fault) (body : ReqBody) (w : World)
    (h : (AddClientMiddleware enc fault body w).1.status = 201) :
    ∃ c n, body = ⟨some c, some n⟩ ∧ c ≠ "" ∧ n ≠ "" ∧ whereCnpj (trim c) w.rows = [] ∧
      AddClientMiddleware enc fault body w =
        (⟨201, .registered (enc.generateSecretWithSalt w.draws)⟩,
          { rows := w.rows ++ [⟨trim c, trim n,
              enc.encrypt w.draws (enc.generateSecretWithSalt w.draws)⟩],
            cache := invalidateCache ("CLIENTES:" ++ trim c)
              (invalidateCache "CLIENTES:ALL" w.cache),
            secrets := addClientToSecretCache
              (enc.encrypt w.draws (enc.generateSecretWithSalt w.draws)) (trim n) w.secrets,
            openConns := w.openConns,
            draws := w.draws + 1 }) := by
  by_cases hm : falsy body.cnpj = true ∨ falsy body.nome = true
  · rw [AddClientMiddleware_missing enc fault body w hm] at h
    simp at h
  · obtain ⟨c, n, rfl, hc, hn⟩ := (not_falsy_iff body).1 hm
    refine ⟨c, n, rfl, hc, hn, ?_⟩
    rw [AddClientMiddleware_present enc fault c n w hc hn] at h ⊢
    split_ifs at h ⊢ with h1 h2 h3 h4 h5 h6 <;> simp at h
    refine ⟨?_, rfl⟩
    exact List.length_eq_zero.1 (Nat.eq_zero_of_not_pos h3)

/-! ## Validation of `AddClientMiddleware` -/

/-- Supporting fact for C5: the handler answers 400 exactly when `cnpj` or
`nome` is absent or the empty string (before any trimming); the message then
lists the missing fields, `cnpj` before `nome`, and the world is unchanged. -/
theorem AddClientMiddleware_400_iff (enc : Encoder) (fault : Fault) (body : ReqBody) (w : World) :
    ((AddClientMiddleware enc fault body w).1.status = 400 ↔
      (falsy body.cnpj = true ∨ falsy body.nome = true)) ∧
    ((falsy body.cnpj = true ∨ falsy body.nome = true) →
      AddClientMiddleware enc fault body w =
        (⟨400, .error ("Campos obrigatórios ausentes: " ++ ", ".intercalate
          ((if falsy body.cnpj then ["cnpj"] else []) ++
            (if falsy body.nome then ["nome"] else [])))⟩, w)) := by
  refine ⟨⟨?_, ?_⟩, AddClientMiddleware_missing enc fault body w⟩
  · intro h
    by_contra hm
    obtain ⟨c, n, rfl, hc, hn⟩ := (not_falsy_iff body).1 hm
    rw [AddClientMiddleware_present enc fault c n w hc hn] at h
    split_ifs at h <;> simp at h
  · intro hm
    rw [AddClientMiddleware_missing enc fault body w hm]

/-- Claim C5, at the failing input `cnpj = "   "`, `nome = "Acme"`: the cnpj
is empty after trimming, yet the handler never answers 400, whatever the
encoder, the fault and the world; from the empty world it answers 201 and
stores a row whose cnpj is the empty string. -/
theorem register_blank_cnpj_not_rejected :
    trim "   " = "" ∧
    (∀ (enc : Encoder) (fault : Fault) (w : World),
      (AddClientMiddleware enc fault ⟨some "   ", some "Acme"⟩ w).1.status ≠ 400) ∧
    AddClientMiddleware sampleEncoder .none ⟨some "   ", some "Acme"⟩ World.init =
      (⟨201, .registered "s"⟩, ⟨[⟨"", "Acme", "enc:s"⟩], [], [("enc:s", "Acme")], 0, 1⟩) := by
  refine ⟨by decide, ?_, by decide⟩
  intro enc fault w h
  have h2 := ((AddClientMiddleware_400_iff enc fault ⟨some "   ", some "Acme"⟩ w).1).1 h
  revert h2
  decide

/-! ## Connections -/

/-- Claim C9, at the failing input: `AddClientMiddleware` on a valid body with
the existence `SELECT` throwing answers 500 and leaves the connection it
acquired open, and so do the three other handlers when their first statement
throws. -/
theorem failed_statement_leaks_connection :
    (AddClientMiddleware sampleEncoder .execute1 ⟨some "123", some "Acme"⟩ World.init).1.status
      = 500 ∧
    (AddClientMiddleware sampleEncoder .execute1 ⟨some "123", some "Acme"⟩ World.init).2.openConns
      = World.init.openConns + 1 ∧
    (GetAllClientsMiddleware .execute1 World.init).2.openConns = World.init.openConns + 1 ∧
    (GetClientByCNPJMiddleware .execute1 (some "123") World.init).2.openConns
      = World.init.openConns + 1 ∧
    (DeleteClientMiddleware .execute1 (some "123") World.init).2.openConns
      = World.init.openConns + 1 := by
  decide

/-! ## Cache keys -/

/-- Claim C1, at the failing input: register cnpj `"ALL"`, list all clients,
then get cnpj `"ALL"`; the store never fails and the client is not deleted,
yet the last answer is the cached list, not the object of the client. -/
theorem get_after_register_key_collision :
    (run sampleEncoder World.init
      [(.register ⟨some "ALL", some "Acme"⟩, .none), (.listAll, .none),
       (.getByCNPJ (some (trim "ALL")), .none)]).1 =
      [⟨201, .registered "s"⟩, ⟨200, .json (.list [⟨"ALL", "Acme"⟩])⟩,
       ⟨200, .json (.list [⟨"ALL", "Acme"⟩])⟩] ∧
    (⟨200, .json (.list [⟨"ALL", "Acme"⟩])⟩ : Response) ≠
      ⟨200, .json (.single ⟨trim "ALL", trim "Acme"⟩)⟩ := by
  decide

/-- Claim C3, at the failing input: with the single row of cnpj `"ALL"` in the
store, delete `"ALL"` (200), list all clients, then get `"ALL"`: the last
answer is 200 with the cached list, not 404. -/
theorem get_after_delete_key_collision :
    (run sampleEncoder ⟨[⟨"ALL", "Acme", "enc:s"⟩], [], [("enc:s", "Acme")], 0, 1⟩
      [(.delete (some "ALL"), .none), (.listAll, .none), (.getByCNPJ (some "ALL"), .none)]).1 =
      [⟨200, .deleted "ALL"⟩, ⟨200, .json (.list [])⟩, ⟨200, .json (.list [])⟩] := by
  decide

/-! ## Duplicate registration -/

/-- Claim C4 as stated fails: after a first registration of cnpj `"123"`
answered 201, a second one with the same cnpj and an empty `nome` answers 400,
not 409. -/
theorem second_register_empty_nome_is_400 :
    (run sampleEncoder World.init
      [(.register ⟨some "123", some "Acme"⟩, .none),
       (.register ⟨some "123", some ""⟩, .none)]).1 =
      [⟨201, .registered "s"⟩, ⟨400, .error "Campos obrigatórios ausentes: nome"⟩] := by
  decide

/-- Claim C4, amended: when a registration answered 201 and the next one has a
non-empty `cnpj` with the same trimmed value, a non-empty `nome`, and the
store does not fail, the second answers 409, the table is unchanged and holds
exactly one row of that cnpj, and the cache and the secret index are
unchanged. -/
theorem second_register_conflicts (enc : Encoder) (fault : Fault) (body : ReqBody) (w : World)
    (c2 n2 : String)
    (h201 : (AddClientMiddleware enc fault body w).1.status = 201)
    (hsame : trim c2 = trim (body.cnpj.getD ""))
    (hc2 : c2 ≠ "") (hn2 : n2 ≠ "") :
    (AddClientMiddleware enc .none ⟨some c2, some n2⟩
        (AddClientMiddleware enc fault body w).2).1 = ⟨409, .error "Cliente já existente"⟩ ∧
    (AddClientMiddleware enc .none ⟨some c2, some n2⟩
        (AddClientMiddleware enc fault body w).2).2.rows
      = (AddClientMiddleware enc fault body w).2.rows ∧
    (whereCnpj (trim c2) (AddClientMiddleware enc .none ⟨some c2, some n2⟩
        (AddClientMiddleware enc fault body w).2).2.rows).length = 1 ∧
    (AddClientMiddleware enc .none ⟨some c2, some n2⟩
        (AddClientMiddleware enc fault body w).2).2.cache
      = (AddClientMiddleware enc fault body w).2.cache ∧
    (AddClientMiddleware enc .none ⟨some c2, some n2⟩
        (AddClientMiddleware enc fault body w).2).2.secrets
      = (AddClientMiddleware enc fault body w).2.secrets := by
  obtain ⟨c, n, rfl, hc, hn, habs, heq⟩ := AddClientMiddleware_201 enc fault body w h201
  simp only [Option.getD_some] at hsame
  rw [heq, AddClientMiddleware_present enc .none c2 n2 _ hc2 hn2]
  have hlen : (whereCnpj (trim c2) (w.rows ++ [⟨trim c, trim n,
      enc.encrypt w.draws (enc.generateSecretWithSalt w.draws)⟩])).length = 1 := by
    rw [hsame]
    unfold whereCnpj at habs ⊢
    rw [List.filter_append, habs]
    simp
  have hpos : (whereCnpj (trim c2) (w.rows ++ [⟨trim c, trim n,
      enc.encrypt w.draws (enc.generateSecretWithSalt w.draws)⟩])).length > 0 := by
    rw [hlen]; exact Nat.one_pos
  simp only [reduceCtorEq, if_false, if_pos hpos]
  exact ⟨trivial, trivial, hlen, trivial, trivial⟩

/-- Instance of `second_register_conflicts`: `"123"` then `" 123 "`. -/
theorem second_register_conflicts_witness :
    (AddClientMiddleware sampleEncoder .none ⟨some " 123 ", some "Other"⟩
        (AddClientMiddleware sampleEncoder .none ⟨some "123", some "Acme"⟩ World.init).2).1
      = ⟨409, .error "Cliente já existente"⟩ :=
  (second_register_conflicts sampleEncoder .none ⟨some "123", some "Acme"⟩ World.init
    " 123 " "Other" (by decide) (by decide) (by decide) (by decide)).1

/-! ## Deleting an absent client -/

/-- Claim C7: for a non-empty cnpj with no row in the table,
`DeleteClientMiddleware` answers 404 and returns the world it was given, also
when the second statement is set to throw (the `DELETE` is never issued); and
whatever call on the store throws, the table, the cache and the secret index
are unchanged. -/
theorem delete_absent_is_frame (cnpj : String) (w : World) (hne : cnpj ≠ "")
    (habs : ∀ r ∈ w.rows, r.cnpj ≠ cnpj) :
    DeleteClientMiddleware .none (some cnpj) w =
      (⟨404, .error "Cliente não encontrado para exclusão"⟩, w) ∧
    DeleteClientMiddleware .execute2 (some cnpj) w =
      (⟨404, .error "Cliente não encontrado para exclusão"⟩, w) ∧
    ∀ fault : Fault,
      (DeleteClientMiddleware fault (some cnpj) w).2.rows = w.rows ∧
      (DeleteClientMiddleware fault (some cnpj) w).2.cache = w.cache ∧
      (DeleteClientMiddleware fault (some cnpj) w).2.secrets = w.secrets := by
  have hnil : whereCnpj cnpj w.rows = [] := by
    unfold whereCnpj
    rw [List.filter_eq_nil_iff]
    intro r hr
    simpa using habs r hr
  have hfalsy : falsy (some cnpj) = false := by simp [falsy, hne]
  refine ⟨?_, ?_, ?_⟩
  · simp [DeleteClientMiddleware, hfalsy, World.acquire, World.release, hnil]
  · simp [DeleteClientMiddleware, hfalsy, World.acquire, World.release, hnil]
  · intro fault
    unfold DeleteClientMiddleware
    simp only [hfalsy, Bool.false_eq_true, if_false, World.acquire, hnil, List.map_nil,
      Option.getD_some, World.release]
    split_ifs <;> simp

/-- Instance of `delete_absent_is_frame`: cnpj `"999"` with another client in
the table and both cache keys filled. -/
theorem delete_absent_is_frame_witness :
    DeleteClientMiddleware .none (some "999")
        ⟨[⟨"123", "Acme", "enc:s"⟩], [("CLIENTES:ALL", .list [⟨"123", "Acme"⟩]),
          ("CLIENTES:999", .single ⟨"999", "Old"⟩)], [("enc:s", "Acme")], 0, 1⟩ =
      (⟨404, .error "Cliente não encontrado para exclusão"⟩,
        ⟨[⟨"123", "Acme", "enc:s"⟩], [("CLIENTES:ALL", .list [⟨"123", "Acme"⟩]),
          ("CLIENTES:999", .single ⟨"999", "Old"⟩)], [("enc:s", "Acme")], 0, 1⟩) :=
  (delete_absent_is_frame "999"
    ⟨[⟨"123", "Acme", "enc:s"⟩], [("CLIENTES:ALL", .list [⟨"123", "Acme"⟩]),
      ("CLIENTES:999", .single ⟨"999", "Old"⟩)], [("enc:s", "Acme")], 0, 1⟩
    (by decide) (by decide)).1

/-! ## Store failures -/

theorem whereCnpj_eq_nil_iff (cnpj : String) (rows : List Row) :
    whereCnpj cnpj rows = [] ↔ ∀ r ∈ rows, r.cnpj ≠ cnpj := by
  unfold whereCnpj
  rw [List.filter_eq_nil_iff]
  constructor
  · intro h r hr
    simpa using h r hr
  · intro h r hr
    simpa using h r hr

/-- Claim C6: on a request that passes validation, when the store throws
while the connection is acquired, during the first statement, or during the
second statement where the handler reaches it (the `INSERT` of a cnpj not yet
in the table, the `DELETE` of a cnpj that is in it), `AddClientMiddleware` and
`DeleteClientMiddleware` answer 500 and the cache, the secret index and the
table are what they were before the call. -/
theorem store_failure_is_atomic (enc : Encoder) (fault : Fault) (c n p : String) (w : World)
    (hc : c ≠ "") (hn : n ≠ "") (hp : p ≠ "") :
    ((fault = .getConnection ∨ fault = .execute1 ∨
        (fault = .execute2 ∧ ∀ r ∈ w.rows, r.cnpj ≠ trim c)) →
      (AddClientMiddleware enc fault ⟨some c, some n⟩ w).1 =
        ⟨500, .error "Erro interno ao registrar cliente"⟩ ∧
      (AddClientMiddleware enc fault ⟨some c, some n⟩ w).2.cache = w.cache ∧
      (AddClientMiddleware enc fault ⟨some c, some n⟩ w).2.secrets = w.secrets ∧
      (AddClientMiddleware enc fault ⟨some c, some n⟩ w).2.rows = w.rows) ∧
    ((fault = .getConnection ∨ fault = .execute1 ∨
        (fault = .execute2 ∧ ∃ r ∈ w.rows, r.cnpj = p)) →
      (DeleteClientMiddleware fault (some p) w).1 = ⟨500, .error "Erro ao excluir cliente"⟩ ∧
      (DeleteClientMiddleware fault (some p) w).2.cache = w.cache ∧
      (DeleteClientMiddleware fault (some p) w).2.secrets = w.secrets ∧
      (DeleteClientMiddleware fault (some p) w).2.rows = w.rows) := by
  constructor
  · intro hf
    rw [AddClientMiddleware_present enc fault c n w hc hn]
    rcases hf with rfl | rfl | ⟨rfl, habs⟩
    · simp
    · simp
    · have hnil := (whereCnpj_eq_nil_iff (trim c) w.rows).2 habs
      simp [hnil]
  · intro hf
    have hfalsy : falsy (some p) = false := by simp [falsy, hp]
    unfold DeleteClientMiddleware
    simp only [hfalsy, Bool.false_eq_true, if_false, World.acquire, Option.getD_some]
    rcases hf with rfl | rfl | ⟨rfl, hex⟩
    · simp
    · simp
    · have hne : whereCnpj p w.rows ≠ [] := fun h =>
        let ⟨r, hr, hrp⟩ := hex
        (whereCnpj_eq_nil_iff p w.rows).1 h r hr hrp
      cases hq : whereCnpj p w.rows with
      | nil => exact absurd hq hne
      | cons r rs => simp

/-- Instance of `store_failure_is_atomic`: the `INSERT` of a new cnpj throws,
and the `DELETE` of an existing cnpj throws. -/
theorem store_failure_is_atomic_witness :
    (AddClientMiddleware sampleEncoder .execute2 ⟨some "456", some "Beta"⟩
        ⟨[⟨"123", "Acme", "enc:s"⟩], [("CLIENTES:ALL", .list [⟨"123", "Acme"⟩])],
          [("enc:s", "Acme")], 0, 1⟩).2.cache
      = [("CLIENTES:ALL", .list [⟨"123", "Acme"⟩])] ∧
    (DeleteClientMiddleware .execute2 (some "123")
        ⟨[⟨"123", "Acme", "enc:s"⟩], [("CLIENTES:ALL", .list [⟨"123", "Acme"⟩])],
          [("enc:s", "Acme")], 0, 1⟩).2.secrets
      = [("enc:s", "Acme")] :=
  ⟨((store_failure_is_atomic sampleEncoder .execute2 "456" "Beta" "123"
      ⟨[⟨"123", "Acme", "enc:s"⟩], [("CLIENTES:ALL", .list [⟨"123", "Acme"⟩])],
        [("enc:s", "Acme")], 0, 1⟩ (by decide) (by decide) (by decide)).1
      (Or.inr (Or.inr ⟨rfl, by decide⟩))).2.1,
   ((store_failure_is_atomic sampleEncoder .execute2 "456" "Beta" "123"
      ⟨[⟨"123", "Acme", "enc:s"⟩], [("CLIENTES:ALL", .list [⟨"123", "Acme"⟩])],
        [("enc:s", "Acme")], 0, 1⟩ (by decide) (by decide) (by decide)).2
      (Or.inr (Or.inr ⟨rfl, by decide⟩))).2.2.1⟩

/-! ## Reads right after a registration -/

theorem mem_selectAllOrderByNome (rows : List Row) (r : Row) (hr : r ∈ rows) :
    (r.cnpj, r.nome) ∈ selectAllOrderByNome rows := by
  unfold selectAllOrderByNome
  rw [(List.perm_insertionSort _ _).mem_iff]
  exact List.mem_map_of_mem _ hr

/-- Claim C2: for every table and cache content, when `AddClientMiddleware`
answers 201 on already-trimmed `cnpj` and `nome`, the next
`GetAllClientsMiddleware` (store not failing) answers 200 with a list that
contains `{cnpj, nome}`, and the next `GetClientByCNPJMiddleware` on that cnpj
(store not failing) answers 200 with `{cnpj, nome}`. -/
theorem register_then_read_reflects (enc : Encoder) (fault : Fault) (cnpj nome : String)
    (w : World) (hc : trim cnpj = cnpj) (hn : trim nome = nome)
    (h201 : (AddClientMiddleware enc fault ⟨some cnpj, some nome⟩ w).1.status = 201) :
    (∃ l, (GetAllClientsMiddleware .none
        (AddClientMiddleware enc fault ⟨some cnpj, some nome⟩ w).2).1 = ⟨200, .json (.list l)⟩ ∧
      (⟨cnpj, nome⟩ : ClientView) ∈ l) ∧
    (GetClientByCNPJMiddleware .none (some cnpj)
        (AddClientMiddleware enc fault ⟨some cnpj, some nome⟩ w).2).1 =
      ⟨200, .json (.single ⟨cnpj, nome⟩)⟩ := by
  obtain ⟨c, n, hb, hc0, hn0, habs, heq⟩ := AddClientMiddleware_201 enc fault _ w h201
  simp only [ReqBody.mk.injEq, Option.some.injEq] at hb
  obtain ⟨rfl, rfl⟩ := hb
  rw [heq, hc, hn] at *
  constructor
  · refine ⟨(selectAllOrderByNome (w.rows ++ [⟨cnpj, nome,
      enc.encrypt w.draws (enc.generateSecretWithSalt w.draws)⟩])).map
        (fun r => (⟨r.1, r.2⟩ : ClientView)), ?_, ?_⟩
    · have hmiss : getCache "CLIENTES:ALL" (invalidateCache ("CLIENTES:" ++ cnpj)
          (invalidateCache "CLIENTES:ALL" w.cache)) = none := getCache_invalidate_twice _ _ _
      simp [GetAllClientsMiddleware, hmiss, World.acquire, World.release]
    · have hm := mem_selectAllOrderByNome (w.rows ++ [⟨cnpj, nome,
        enc.encrypt w.draws (enc.generateSecretWithSalt w.draws)⟩]) ⟨cnpj, nome,
        enc.encrypt w.draws (enc.generateSecretWithSalt w.draws)⟩ (by simp)
      exact List.mem_map_of_mem (fun r => (⟨r.1, r.2⟩ : ClientView)) hm
  · have hmiss : getCache ("CLIENTES:" ++ cnpj) (invalidateCache ("CLIENTES:" ++ cnpj)
        (invalidateCache "CLIENTES:ALL" w.cache)) = none := getCache_invalidate_self _ _
    have hfalsy : falsy (some cnpj) = false := by simp [falsy, hc0]
    have hsel : whereCnpj cnpj (w.rows ++ [⟨cnpj, nome,
        enc.encrypt w.draws (enc.generateSecretWithSalt w.draws)⟩]) = [⟨cnpj, nome,
        enc.encrypt w.draws (enc.generateSecretWithSalt w.draws)⟩] := by
      unfold whereCnpj at habs ⊢
      rw [List.filter_append, habs]
      simp
    simp [GetClientByCNPJMiddleware, hfalsy, hmiss, World.acquire, World.release, hsel]

/-- Instance of `register_then_read_reflects`: the example of the
specification, with the list and the client cached before registration. -/
theorem register_then_read_reflects_witness :
    (GetClientByCNPJMiddleware .none (some "12345678000199")
        (AddClientMiddleware sampleEncoder .none ⟨some "12345678000199", some "Acme"⟩
          ⟨[], [("CLIENTES:ALL", .list []),
            ("CLIENTES:12345678000199", .single ⟨"12345678000199", "Old"⟩)], [], 0, 0⟩).2).1 =
      ⟨200, .json (.single ⟨"12345678000199", "Acme"⟩)⟩ :=
  (register_then_read_reflects sampleEncoder .none "12345678000199" "Acme"
    ⟨[], [("CLIENTES:ALL", .list []),
      ("CLIENTES:12345678000199", .single ⟨"12345678000199", "Old"⟩)], [], 0, 0⟩
    (by decide) (by decide) (by decide)).2

/-! ## Secrets and reads -/

theorem whereCnpj_length_view (cnpj : String) (rows : List Row) :
    (whereCnpj cnpj rows).length =
      ((rows.map Row.view).filter (fun p => decide (p.1 = cnpj))).length := by
  induction rows with
  | nil => rfl
  | cons r rows ih =>
    unfold whereCnpj at ih ⊢
    by_cases h : r.cnpj = cnpj
    · simp [List.filter_cons, h, Row.view, ih]
    · simp [List.filter_cons, h, Row.view, ih]

theorem whereCnpj_map_view (cnpj : String) (rows : List Row) :
    (whereCnpj cnpj rows).map (fun r => (r.cnpj, r.nome)) =
      (rows.map Row.view).filter (fun p => decide (p.1 = cnpj)) := by
  induction rows with
  | nil => rfl
  | cons r rows ih =>
    unfold whereCnpj at ih ⊢
    by_cases h : r.cnpj = cnpj
    · simp [List.filter_cons, h, Row.view, ih]
    · simp [List.filter_cons, h, Row.view, ih]

theorem deleteWhereCnpj_map_view (cnpj : String) (rows : List Row) :
    (deleteWhereCnpj cnpj rows).map Row.view =
      (rows.map Row.view).filter (fun p => decide (p.1 ≠ cnpj)) := by
  induction rows with
  | nil => rfl
  | cons r rows ih =>
    unfold deleteWhereCnpj at ih ⊢
    by_cases h : r.cnpj = cnpj
    · simpa [List.filter_cons, h, Row.view] using ih
    · simpa [List.filter_cons, h, Row.view] using ih

theorem selectAllOrderByNome_view (rows : List Row) :
    selectAllOrderByNome rows =
      (rows.map Row.view).insertionSort (fun a b => a.2 ≤ b.2) := rfl

theorem sameUpToToken_refl (r : Response) : sameUpToToken r r := Or.inl rfl

theorem public_eq_iff (w1 w2 : World) :
    w1.public = w2.public ↔
      w1.rows.map Row.view = w2.rows.map Row.view ∧ w1.cache = w2.cache ∧
        w1.openConns = w2.openConns ∧ w1.draws = w2.draws := by
  simp [World.public]

theorem AddClientMiddleware_public (enc1 enc2 : Encoder) (fault : Fault) (body : ReqBody)
    (w1 w2 : World) (h : w1.public = w2.public) :
    (AddClientMiddleware enc1 fault body w1).2.public =
        (AddClientMiddleware enc2 fault body w2).2.public ∧
      sameUpToToken (AddClientMiddleware enc1 fault body w1).1
        (AddClientMiddleware enc2 fault body w2).1 := by
  by_cases hm : falsy body.cnpj = true ∨ falsy body.nome = true
  · rw [AddClientMiddleware_missing enc1 fault body w1 hm,
      AddClientMiddleware_missing enc2 fault body w2 hm]
    exact ⟨h, sameUpToToken_refl _⟩
  · obtain ⟨c, n, rfl, hc, hn⟩ := (not_falsy_iff body).1 hm
    rw [AddClientMiddleware_present enc1 fault c n w1 hc hn,
      AddClientMiddleware_present enc2 fault c n w2 hc hn]
    obtain ⟨hr, hca, ho, hd⟩ := (public_eq_iff w1 w2).1 h
    have hlen : (whereCnpj (trim c) w1.rows).length = (whereCnpj (trim c) w2.rows).length := by
      rw [whereCnpj_length_view, whereCnpj_length_view, hr]
    rw [hlen]
    split_ifs
    all_goals first
      | exact ⟨by simp [World.public, hr, hca, ho, hd, Row.view], sameUpToToken_refl _⟩
      | exact ⟨by simp [World.public, hr, hca, ho, hd, Row.view], Or.inr ⟨_, _, rfl, rfl⟩⟩

theorem GetAllClientsMiddleware_public (fault : Fault) (w1 w2 : World)
    (h : w1.public = w2.public) :
    (GetAllClientsMiddleware fault w1).2.public = (GetAllClientsMiddleware fault w2).2.public ∧
      (GetAllClientsMiddleware fault w1).1 = (GetAllClientsMiddleware fault w2).1 := by
  rcases w1 with ⟨rows1, cache1, sec1, oc1, d1⟩
  rcases w2 with ⟨rows2, cache2, sec2, oc2, d2⟩
  simp only [World.public, Prod.mk.injEq] at h
  obtain ⟨hr, rfl, rfl, rfl⟩ := h
  unfold GetAllClientsMiddleware
  simp only [selectAllOrderByNome_view, World.acquire, World.release, hr]
  cases getCache "CLIENTES:ALL" cache1 with
  | some v => simp [World.public, hr]
  | none =>
    simp only []
    split_ifs <;> simp [World.public, hr]

theorem GetClientByCNPJMiddleware_public (fault : Fault) (param : Option String)
    (w1 w2 : World) (h : w1.public = w2.public) :
    (GetClientByCNPJMiddleware fault param w1).2.public =
        (GetClientByCNPJMiddleware fault param w2).2.public ∧
      (GetClientByCNPJMiddleware fault param w1).1 =
        (GetClientByCNPJMiddleware fault param w2).1 := by
  rcases w1 with ⟨rows1, cache1, sec1, oc1, d1⟩
  rcases w2 with ⟨rows2, cache2, sec2, oc2, d2⟩
  simp only [World.public, Prod.mk.injEq] at h
  obtain ⟨hr, rfl, rfl, rfl⟩ := h
  unfold GetClientByCNPJMiddleware
  simp only [whereCnpj_map_view, World.acquire, World.release, hr]
  by_cases hf : falsy param = true
  · simp [hf, World.public, hr]
  · simp only [hf, if_false]
    cases getCache ("CLIENTES:" ++ param.getD "") cache1 with
    | some v => simp [World.public, hr]
    | none =>
      simp only []
      cases List.filter (fun p => decide (p.1 = param.getD "")) (List.map Row.view rows2) with
      | nil => split_ifs <;> simp [World.public, hr]
      | cons x xs => split_ifs <;> simp [World.public, hr]

theorem DeleteClientMiddleware_public (fault : Fault) (param : Option String)
    (w1 w2 : World) (h : w1.public = w2.public) :
    (DeleteClientMiddleware fault param w1).2.public =
        (DeleteClientMiddleware fault param w2).2.public ∧
      (DeleteClientMiddleware fault param w1).1 = (DeleteClientMiddleware fault param w2).1 := by
  obtain ⟨hr, hca, ho, hd⟩ := (public_eq_iff w1 w2).1 h
  have hlen : (whereCnpj (param.getD "") w1.rows).length =
      (whereCnpj (param.getD "") w2.rows).length := by
    rw [whereCnpj_length_view, whereCnpj_length_view, hr]
  have hdel : (deleteWhereCnpj (param.getD "") w1.rows).map Row.view =
      (deleteWhereCnpj (param.getD "") w2.rows).map Row.view := by
    rw [deleteWhereCnpj_map_view, deleteWhereCnpj_map_view, hr]
  unfold DeleteClientMiddleware
  simp only [World.acquire, World.release]
  by_cases hf : falsy param = true
  · simp only [hf, if_true]
    exact ⟨h, trivial⟩
  · simp only [hf, if_false]
    cases h1 : whereCnpj (param.getD "") w1.rows with
    | nil =>
      cases h2 : whereCnpj (param.getD "") w2.rows with
      | nil => cases fault <;> simp [World.public, hr, hca, ho, hd]
      | cons y ys => rw [h1, h2] at hlen; simp at hlen
    | cons x xs =>
      cases h2 : whereCnpj (param.getD "") w2.rows with
      | nil => rw [h1, h2] at hlen; simp at hlen
      | cons y ys => cases fault <;> simp [World.public, hr, hca, ho, hd, hdel]

/-- One request served in two worlds with the same public part, by two
encoders. -/
theorem step_public (enc1 enc2 : Encoder) (c : Call × Fault) (w1 w2 : World)
    (h : w1.public = w2.public) :
    (step enc1 w1 c).2.public = (step enc2 w2 c).2.public ∧
      sameUpToToken (step enc1 w1 c).1 (step enc2 w2 c).1 ∧
      (c.1.isRead = true → (step enc1 w1 c).1 = (step enc2 w2 c).1) := by
  rcases c with ⟨c, f⟩
  cases c with
  | register body =>
    have := AddClientMiddleware_public enc1 enc2 f body w1 w2 h
    exact ⟨this.1, this.2, by simp [Call.isRead]⟩
  | listAll =>
    have := GetAllClientsMiddleware_public f w1 w2 h
    exact ⟨this.1, Or.inl this.2, fun _ => this.2⟩
  | getByCNPJ p =>
    have := GetClientByCNPJMiddleware_public f p w1 w2 h
    exact ⟨this.1, Or.inl this.2, fun _ => this.2⟩
  | delete p =>
    have := DeleteClientMiddleware_public f p w1 w2 h
    exact ⟨this.1, Or.inl this.2, fun _ => this.2⟩

/-- A response that carries a token is the 201 of a registration. -/
theorem step_registered (enc : Encoder) (c : Call × Fault) (w : World) (t : String)
    (h : (step enc w c).1.body = .registered t) :
    (∃ b, c.1 = .register b) ∧ (step enc w c).1.status = 201 ∧
      t = enc.generateSecretWithSalt w.draws := by
  rcases c with ⟨c, f⟩
  cases c with
  | register body =>
    refine ⟨⟨body, rfl⟩, ?_⟩
    simp only [step] at h ⊢
    by_cases hm : falsy body.cnpj = true ∨ falsy body.nome = true
    · rw [AddClientMiddleware_missing enc f body w hm] at h
      simp at h
    · obtain ⟨c, n, rfl, hc, hn⟩ := (not_falsy_iff body).1 hm
      rw [AddClientMiddleware_present enc f c n w hc hn] at h ⊢
      split_ifs at h ⊢
      all_goals simp at h ⊢
      exact h.symm
  | listAll =>
    exfalso
    cases hc : getCache "CLIENTES:ALL" w.cache with
    | some v => simp [step, GetAllClientsMiddleware, hc] at h
    | none => cases f <;> simp [step, GetAllClientsMiddleware, hc] at h
  | getByCNPJ p =>
    exfalso
    by_cases hf : falsy p = true
    · simp [step, GetClientByCNPJMiddleware, hf] at h
    · cases hc : getCache ("CLIENTES:" ++ p.getD "") w.cache with
      | some v => simp [step, GetClientByCNPJMiddleware, hf, hc] at h
      | none =>
        cases hq : whereCnpj (p.getD "") w.rows with
        | nil =>
          cases f <;>
            simp [step, GetClientByCNPJMiddleware, hf, hc, hq, World.acquire, World.release] at h
        | cons x xs =>
          cases f <;>
            simp [step, GetClientByCNPJMiddleware, hf, hc, hq, World.acquire, World.release] at h
  | delete p =>
    exfalso
    by_cases hf : falsy p = true
    · simp [step, DeleteClientMiddleware, hf] at h
    · cases hq : whereCnpj (p.getD "") w.rows with
      | nil =>
        cases f <;>
          simp [step, DeleteClientMiddleware, hf, hq, World.acquire, World.release] at h
      | cons x xs =>
        cases f <;>
          simp [step, DeleteClientMiddleware, hf, hq, World.acquire, World.release] at h

theorem run_length (enc : Encoder) (calls : List (Call × Fault)) (w : World) :
    (run enc w calls).1.length = calls.length := by
  induction calls generalizing w with
  | nil => rfl
  | cons c cs ih => simp [run, ih]

/-- Claim C10: serve the same requests, under the same faults, with two
encoders, from two worlds that agree except on column `SECRET_ENC` and on the
secret index. Then the two runs give as many responses as there are requests,
and at every position the two responses are equal or are both a 201 carrying
a token; the responses of `GetAllClientsMiddleware` and
`GetClientByCNPJMiddleware` are equal; and a response carries a token only
when it is the 201 of `AddClientMiddleware`. -/
theorem secrets_do_not_flow_into_reads (enc1 enc2 : Encoder) (w1 w2 : World)
    (calls : List (Call × Fault)) (h : w1.public = w2.public) :
    (run enc1 w1 calls).1.length = calls.length ∧
    (run enc2 w2 calls).1.length = calls.length ∧
    (run enc1 w1 calls).2.public = (run enc2 w2 calls).2.public ∧
    ∀ (i : Nat) (c : Call × Fault) (r1 r2 : Response),
      calls[i]? = some c → (run enc1 w1 calls).1[i]? = some r1 →
      (run enc2 w2 calls).1[i]? = some r2 →
        sameUpToToken r1 r2 ∧ (c.1.isRead = true → r1 = r2) ∧
        (∀ t, r1.body = .registered t → (∃ b, c.1 = .register b) ∧ r1.status = 201) := by
  refine ⟨run_length enc1 calls w1, run_length enc2 calls w2, ?_⟩
  induction calls generalizing w1 w2 with
  | nil =>
    refine ⟨h, ?_⟩
    intro i c r1 r2 hc
    simp at hc
  | cons c0 cs ih =>
    obtain ⟨hpub, hsame, hread⟩ := step_public enc1 enc2 c0 w1 w2 h
    obtain ⟨ihpub, ihrest⟩ := ih (step enc1 w1 c0).2 (step enc2 w2 c0).2 hpub
    refine ⟨ihpub, ?_⟩
    intro i c r1 r2 hc h1 h2
    cases i with
    | zero =>
      simp only [run, List.getElem?_cons_zero, Option.some.injEq] at hc h1 h2
      subst hc h1 h2
      refine ⟨hsame, hread, ?_⟩
      intro t ht
      have := step_registered enc1 c0 w1 t ht
      exact ⟨this.1, this.2.1⟩
    | succ j =>
      simp only [run, List.getElem?_cons_succ] at hc h1 h2
      exact ihrest j c r1 r2 hc h1 h2

/-- Instance of `secrets_do_not_flow_into_reads`: two runs of register, list,
get from tables that differ in `SECRET_ENC`, with two encoders; the answers of
the get are equal. -/
theorem secrets_do_not_flow_into_reads_witness :
    (⟨200, .json (.single ⟨"123", "Acme"⟩)⟩ : Response) =
      ⟨200, .json (.single ⟨"123", "Acme"⟩)⟩ ∧
    sameUpToToken ⟨201, .registered "s"⟩ ⟨201, .registered "tt"⟩ :=
  ⟨((secrets_do_not_flow_into_reads sampleEncoder otherEncoder
      ⟨[⟨"123", "Acme", "enc:s"⟩], [], [("enc:s", "Acme")], 0, 0⟩
      ⟨[⟨"123", "Acme", "key:t"⟩], [], [], 0, 0⟩
      [(.register ⟨some "456", some "Beta"⟩, .none), (.listAll, .none),
        (.getByCNPJ (some "123"), .none)]
      (by decide)).2.2.2 2 (.getByCNPJ (some "123"), .none)
      ⟨200, .json (.single ⟨"123", "Acme"⟩)⟩ ⟨200, .json (.single ⟨"123", "Acme"⟩)⟩
      (by decide) (by decide) (by decide)).2.1 rfl,
   ((secrets_do_not_flow_into_reads sampleEncoder otherEncoder
      ⟨[⟨"123", "Acme", "enc:s"⟩], [], [("enc:s", "Acme")], 0, 0⟩
      ⟨[⟨"123", "Acme", "key:t"⟩], [], [], 0, 0⟩
      [(.register ⟨some "456", some "Beta"⟩, .none), (.listAll, .none),
        (.getByCNPJ (some "123"), .none)]
      (by decide)).2.2.2 0 (.register ⟨some "456", some "Beta"⟩, .none)
      ⟨201, .registered "s"⟩ ⟨201, .registered "tt"⟩
      (by decide) (by decide) (by decide)).1⟩

/-! ## The secret index -/

theorem secretOwner_remove (e k : String) (s : List (String × String)) :
    secretOwner e (removeClientFromSecretCache k s) =
      if e = k then none else secretOwner e s := by
  induction s with
  | nil => simp [secretOwner, removeClientFromSecretCache]
  | cons x s ih =>
    unfold secretOwner removeClientFromSecretCache at ih ⊢
    by_cases h : x.1 = k
    · rw [List.filter_cons_of_neg (by simp [h]), ih]
      by_cases h2 : e = k
      · simp [h2]
      · have h3 : ¬ x.1 = e := fun h4 => h2 (h4.symm.trans h)
        rw [if_neg h2, if_neg h2, List.find?_cons_of_neg _ (by simp [h3])]
    · rw [List.filter_cons_of_pos (by simp [h])]
      by_cases h3 : x.1 = e
      · have h2 : ¬ e = k := fun h4 => h (h3.trans h4)
        rw [if_neg h2, List.find?_cons_of_pos _ (by simp [h3]),
          List.find?_cons_of_pos _ (by simp [h3])]
      · rw [List.find?_cons_of_neg _ (by simp [h3]), ih,
          List.find?_cons_of_neg _ (by simp [h3])]

theorem secretOwner_add (e k v : String) (s : List (String × String)) :
    secretOwner e (addClientToSecretCache k v s) =
      if e = k then some v else secretOwner e s := by
  have h := secretOwner_remove e k s
  unfold addClientToSecretCache
  unfold secretOwner at h ⊢
  by_cases h2 : e = k
  · rw [if_pos h2, List.find?_cons_of_pos _ (by simp [h2])]
    rfl
  · have h3 : ¬ k = e := fun h4 => h2 h4.symm
    rw [if_neg h2] at h ⊢
    rw [List.find?_cons_of_neg _ (by simp [h3])]
    exact h

theorem TracksStore_empty (enc : Encoder) (w : World) (hr : w.rows = [])
    (hs : w.secrets = []) : TracksStore enc w := by
  refine ⟨?_, ?_, ?_, ?_⟩ <;> simp [hr, hs, secretOwner]

/-- The invariant reads only the table, the index and the number of draws. -/
theorem TracksStore_congr (enc : Encoder) (w w2 : World) (hr : w2.rows = w.rows)
    (hs : w2.secrets = w.secrets) (hd : w.draws ≤ w2.draws) (h : TracksStore enc w) :
    TracksStore enc w2 := by
  obtain ⟨h1, h2, h3, h4⟩ := h
  refine ⟨?_, ?_, ?_, ?_⟩
  · intro r hrm
    rw [hr] at hrm
    obtain ⟨n, hn, he⟩ := h1 r hrm
    exact ⟨n, Nat.lt_of_lt_of_le hn hd, he⟩
  · rw [hr]; exact h2
  · rw [hr]; exact h3
  · rw [hr, hs]; exact h4

theorem TracksStore_insert (enc : Encoder)
    (hinj : Function.Injective enc.encryptedAt) (w w2 : World) (c n : String)
    (habs : whereCnpj c w.rows = [])
    (hr : w2.rows = w.rows ++ [⟨c, n, enc.encryptedAt w.draws⟩])
    (hs : w2.secrets = addClientToSecretCache (enc.encryptedAt w.draws) n w.secrets)
    (hd : w2.draws = w.draws + 1) (h : TracksStore enc w) :
    TracksStore enc w2 := by
  obtain ⟨h1, h2, h3, h4⟩ := h
  have hfresh : ∀ r ∈ w.rows, r.secret_enc ≠ enc.encryptedAt w.draws := by
    intro r hrm he
    obtain ⟨m, hm, hme⟩ := h1 r hrm
    have := hinj (hme.symm.trans he)
    omega
  have hnew : ∀ r ∈ w.rows, r.cnpj ≠ c := (whereCnpj_eq_nil_iff c w.rows).1 habs
  refine ⟨?_, ?_, ?_, ?_⟩
  · intro r hrm
    rw [hr, List.mem_append, List.mem_singleton] at hrm
    rw [hd]
    rcases hrm with hrm | rfl
    · obtain ⟨m, hm, hme⟩ := h1 r hrm
      exact ⟨m, Nat.lt_succ_of_lt hm, hme⟩
    · exact ⟨w.draws, Nat.lt_succ_self _, rfl⟩
  · intro r1 hr1 r2 hr2 he
    rw [hr, List.mem_append, List.mem_singleton] at hr1 hr2
    rcases hr1 with hr1 | rfl <;> rcases hr2 with hr2 | rfl
    · exact h2 r1 hr1 r2 hr2 he
    · exact absurd he (hfresh r1 hr1)
    · exact absurd he.symm (hfresh r2 hr2)
    · rfl
  · intro r1 hr1 r2 hr2 he
    rw [hr, List.mem_append, List.mem_singleton] at hr1 hr2
    rcases hr1 with hr1 | rfl <;> rcases hr2 with hr2 | rfl
    · exact h3 r1 hr1 r2 hr2 he
    · exact absurd he (hnew r1 hr1)
    · exact absurd he.symm (hnew r2 hr2)
    · rfl
  · intro e m
    rw [hs, secretOwner_add, hr]
    by_cases hk : e = enc.encryptedAt w.draws
    · rw [if_pos hk]
      constructor
      · intro hm
        refine ⟨⟨c, n, enc.encryptedAt w.draws⟩, by simp, hk.symm, ?_⟩
        simpa using hm
      · rintro ⟨r, hrm, hre, hrn⟩
        rw [List.mem_append, List.mem_singleton] at hrm
        rcases hrm with hrm | rfl
        · exact absurd (hre.trans hk) (hfresh r hrm)
        · simpa using hrn
    · rw [if_neg hk, h4]
      constructor
      · rintro ⟨r, hrm, hre, hrn⟩
        exact ⟨r, List.mem_append_left _ hrm, hre, hrn⟩
      · rintro ⟨r, hrm, hre, hrn⟩
        rw [List.mem_append, List.mem_singleton] at hrm
        rcases hrm with hrm | rfl
        · exact ⟨r, hrm, hre, hrn⟩
        · exact absurd hre.symm hk

theorem TracksStore_delete (enc : Encoder) (w w2 : World) (p : String) (x : Row)
    (xs : List Row) (hx : whereCnpj p w.rows = x :: xs)
    (hr : w2.rows = deleteWhereCnpj p w.rows)
    (hs : w2.secrets = removeClientFromSecretCache x.secret_enc w.secrets)
    (hd : w2.draws = w.draws) (h : TracksStore enc w) :
    TracksStore enc w2 := by
  obtain ⟨h1, h2, h3, h4⟩ := h
  have hxm : x ∈ w.rows ∧ x.cnpj = p := by
    have : x ∈ whereCnpj p w.rows := by rw [hx]; exact List.mem_cons_self _ _
    unfold whereCnpj at this
    simpa using this
  have hmem : ∀ r, r ∈ deleteWhereCnpj p w.rows ↔ r ∈ w.rows ∧ r.cnpj ≠ p := by
    intro r
    unfold deleteWhereCnpj
    simp
  refine ⟨?_, ?_, ?_, ?_⟩
  · intro r hrm
    rw [hr, hmem] at hrm
    rw [hd]
    exact h1 r hrm.1
  · intro r1 hr1 r2 hr2 he
    rw [hr, hmem] at hr1 hr2
    exact h2 r1 hr1.1 r2 hr2.1 he
  · intro r1 hr1 r2 hr2 he
    rw [hr, hmem] at hr1 hr2
    exact h3 r1 hr1.1 r2 hr2.1 he
  · intro e m
    rw [hs, secretOwner_remove, hr]
    by_cases hk : e = x.secret_enc
    · rw [if_pos hk]
      constructor
      · intro hm; simp at hm
      · rintro ⟨r, hrm, hre, _⟩
        rw [hmem] at hrm
        have : r = x := h2 r hrm.1 x hxm.1 (hre.trans hk)
        exact absurd (this ▸ hxm.2) hrm.2
    · rw [if_neg hk, h4]
      constructor
      · rintro ⟨r, hrm, hre, hrn⟩
        refine ⟨r, (hmem r).2 ⟨hrm, ?_⟩, hre, hrn⟩
        intro hp
        have : r = x := h3 r hrm x hxm.1 (hp.trans hxm.2.symm)
        exact hk (hre.symm.trans (this ▸ rfl))
      · rintro ⟨r, hrm, hre, hrn⟩
        exact ⟨r, ((hmem r).1 hrm).1, hre, hrn⟩

theorem AddClientMiddleware_tracks (enc : Encoder)
    (hinj : Function.Injective enc.encryptedAt) (fault : Fault) (body : ReqBody) (w : World)
    (h : TracksStore enc w) : TracksStore enc (AddClientMiddleware enc fault body w).2 := by
  by_cases hm : falsy body.cnpj = true ∨ falsy body.nome = true
  · rw [AddClientMiddleware_missing enc fault body w hm]
    exact h
  · obtain ⟨c, n, rfl, hc, hn⟩ := (not_falsy_iff body).1 hm
    rw [AddClientMiddleware_present enc fault c n w hc hn]
    split_ifs with h1 h2 h3 h4 h5 h6
    · exact TracksStore_congr enc w _ rfl rfl (Nat.le_succ _) h
    · exact TracksStore_congr enc w _ rfl rfl (Nat.le_succ _) h
    · exact TracksStore_congr enc w _ rfl rfl (Nat.le_succ _) h
    · exact TracksStore_congr enc w _ rfl rfl (Nat.le_succ _) h
    · exact TracksStore_congr enc w _ rfl rfl (Nat.le_succ _) h
    · exact TracksStore_insert enc hinj w _ (trim c) (trim n)
        (List.length_eq_zero.1 (Nat.eq_zero_of_not_pos h3)) rfl rfl rfl h
    · exact TracksStore_insert enc hinj w _ (trim c) (trim n)
        (List.length_eq_zero.1 (Nat.eq_zero_of_not_pos h3)) rfl rfl rfl h

theorem GetAllClientsMiddleware_frame (fault : Fault) (w : World) :
    (GetAllClientsMiddleware fault w).2.rows = w.rows ∧
      (GetAllClientsMiddleware fault w).2.secrets = w.secrets ∧
      (GetAllClientsMiddleware fault w).2.draws = w.draws := by
  cases hc : getCache "CLIENTES:ALL" w.cache with
  | some v => simp [GetAllClientsMiddleware, hc]
  | none =>
    cases fault <;> simp [GetAllClientsMiddleware, hc, World.acquire, World.release]

theorem GetClientByCNPJMiddleware_frame (fault : Fault) (p : Option String) (w : World) :
    (GetClientByCNPJMiddleware fault p w).2.rows = w.rows ∧
      (GetClientByCNPJMiddleware fault p w).2.secrets = w.secrets ∧
      (GetClientByCNPJMiddleware fault p w).2.draws = w.draws := by
  by_cases hf : falsy p = true
  · simp [GetClientByCNPJMiddleware, hf]
  · cases hc : getCache ("CLIENTES:" ++ p.getD "") w.cache with
    | some v => simp [GetClientByCNPJMiddleware, hf, hc]
    | none =>
      cases hq : whereCnpj (p.getD "") w.rows with
      | nil =>
        cases fault <;>
          simp [GetClientByCNPJMiddleware, hf, hc, hq, World.acquire, World.release]
      | cons x xs =>
        cases fault <;>
          simp [GetClientByCNPJMiddleware, hf, hc, hq, World.acquire, World.release]

theorem DeleteClientMiddleware_tracks (enc : Encoder) (fault : Fault) (p : Option String)
    (w : World) (h : TracksStore enc w) :
    TracksStore enc (DeleteClientMiddleware fault p w).2 := by
  by_cases hf : falsy p = true
  · simp only [DeleteClientMiddleware, hf, if_true]
    exact h
  · cases hq : whereCnpj (p.getD "") w.rows with
    | nil =>
      refine TracksStore_congr enc w _ ?_ ?_ ?_ h <;>
        cases fault <;> simp [DeleteClientMiddleware, hf, hq, World.acquire, World.release]
    | cons x xs =>
      by_cases hreach : fault = .none ∨ fault = .close
      · refine TracksStore_delete enc w _ (p.getD "") x xs hq ?_ ?_ ?_ h <;>
          rcases hreach with rfl | rfl <;>
          simp [DeleteClientMiddleware, hf, hq, World.acquire, World.release]
      · refine TracksStore_congr enc w _ ?_ ?_ ?_ h <;>
          cases fault <;>
          simp [DeleteClientMiddleware, hf, hq, World.acquire, World.release] at hreach ⊢

theorem step_tracks (enc : Encoder) (hinj : Function.Injective enc.encryptedAt)
    (c : Call × Fault) (w : World) (h : TracksStore enc w) :
    TracksStore enc (step enc w c).2 := by
  rcases c with ⟨c, f⟩
  cases c with
  | register body => exact AddClientMiddleware_tracks enc hinj f body w h
  | listAll =>
    have := GetAllClientsMiddleware_frame f w
    exact TracksStore_congr enc w _ this.1 this.2.1 (Nat.le_of_eq this.2.2.symm) h
  | getByCNPJ p =>
    have := GetClientByCNPJMiddleware_frame f p w
    exact TracksStore_congr enc w _ this.1 this.2.1 (Nat.le_of_eq this.2.2.symm) h
  | delete p => exact DeleteClientMiddleware_tracks enc f p w h

theorem run_tracks (enc : Encoder) (hinj : Function.Injective enc.encryptedAt)
    (calls : List (Call × Fault)) (w : World) (h : TracksStore enc w) :
    TracksStore enc (run enc w calls).2 := by
  induction calls generalizing w with
  | nil => exact h
  | cons c cs ih => exact ih _ (step_tracks enc hinj c w h)

theorem sampleEncoder_injective : Function.Injective sampleEncoder.encryptedAt := by
  intro a b h
  have h2 := congrArg String.length h
  simp [Encoder.encryptedAt, sampleEncoder, String.length] at h2
  exact h2

/-- Claim C8: serve any requests, under any faults, from a world whose table
and secret index are empty, with an encoder that never returns the same
encrypted secret twice. In the world reached, the secret index maps an
encrypted secret to a name exactly when a row of the table holds that
encrypted secret and that name. -/
theorem secret_index_tracks_store (enc : Encoder)
    (hinj : Function.Injective enc.encryptedAt) (w : World) (hr : w.rows = [])
    (hs : w.secrets = []) (calls : List (Call × Fault)) (e n : String) :
    secretOwner e (run enc w calls).2.secrets = some n ↔
      ∃ r ∈ (run enc w calls).2.rows, r.secret_enc = e ∧ r.nome = n :=
  (run_tracks enc hinj calls w (TracksStore_empty enc w hr hs)).2.2.2 e n

/-- Instance of `secret_index_tracks_store`: two registrations, a third with
a failing `INSERT`, then a deletion of the second client. -/
theorem secret_index_tracks_store_witness :
    secretOwner "enc:s" (run sampleEncoder World.init
        [(.register ⟨some "123", some "Acme"⟩, .none),
         (.register ⟨some "456", some "Beta"⟩, .none),
         (.register ⟨some "789", some "Gama"⟩, .execute2),
         (.delete (some "456"), .none)]).2.secrets = some "Acme" ↔
      ∃ r ∈ (run sampleEncoder World.init
        [(.register ⟨some "123", some "Acme"⟩, .none),
         (.register ⟨some "456", some "Beta"⟩, .none),
         (.register ⟨some "789", some "Gama"⟩, .execute2),
         (.delete (some "456"), .none)]).2.rows, r.secret_enc = "enc:s" ∧ r.nome = "Acme" :=
  secret_index_tracks_store sampleEncoder sampleEncoder_injective World.init rfl rfl _
    "enc:s" "Acme"

/-! ## Cache coherence -/

theorem getCache_invalidate (k k2 : String) (c : List (String × CacheValue)) :
    getCache k (invalidateCache k2 c) = if k = k2 then none else getCache k c := by
  by_cases h : k = k2
  · subst h
    rw [if_pos rfl]
    exact getCache_invalidate_self _ _
  · rw [if_neg h]
    exact getCache_invalidate_other k k2 (fun h2 => h h2.symm) c

theorem getCache_setCache (k k2 : String) (v : CacheValue) (c : List (String × CacheValue)) :
    getCache k (setCache k2 v c) = if k = k2 then some v else getCache k c := by
  by_cases h : k = k2
  · subst h
    rw [if_pos rfl]
    exact getCache_setCache_self _ _ _
  · rw [if_neg h]
    exact getCache_setCache_other k k2 (fun h2 => h h2.symm) v c

/-- What `AddClientMiddleware` does to the table and the cache. -/
theorem AddClientMiddleware_effect (enc : Encoder) (fault : Fault) (body : ReqBody) (w : World) :
    ((AddClientMiddleware enc fault body w).2.rows = w.rows ∧
      (AddClientMiddleware enc fault body w).2.cache = w.cache) ∨
    ∃ c n, body = ⟨some c, some n⟩ ∧ whereCnpj (trim c) w.rows = [] ∧
      (AddClientMiddleware enc fault body w).2.rows =
        w.rows ++ [⟨trim c, trim n, enc.encryptedAt w.draws⟩] ∧
      (AddClientMiddleware enc fault body w).2.cache =
        invalidateCache ("CLIENTES:" ++ trim c) (invalidateCache "CLIENTES:ALL" w.cache) := by
  by_cases hm : falsy body.cnpj = true ∨ falsy body.nome = true
  · rw [AddClientMiddleware_missing enc fault body w hm]
    exact Or.inl ⟨rfl, rfl⟩
  · obtain ⟨c, n, rfl, hc, hn⟩ := (not_falsy_iff body).1 hm
    rw [AddClientMiddleware_present enc fault c n w hc hn]
    split_ifs with h1 h2 h3 h4 h5 h6
    · exact Or.inl ⟨rfl, rfl⟩
    · exact Or.inl ⟨rfl, rfl⟩
    · exact Or.inl ⟨rfl, rfl⟩
    · exact Or.inl ⟨rfl, rfl⟩
    · exact Or.inl ⟨rfl, rfl⟩
    · exact Or.inr ⟨c, n, rfl, List.length_eq_zero.1 (Nat.eq_zero_of_not_pos h3), rfl, rfl⟩
    · exact Or.inr ⟨c, n, rfl, List.length_eq_zero.1 (Nat.eq_zero_of_not_pos h3), rfl, rfl⟩

/-- What `GetAllClientsMiddleware` does to the table and the cache. -/
theorem GetAllClientsMiddleware_effect (fault : Fault) (w : World) :
    (GetAllClientsMiddleware fault w).2.rows = w.rows ∧
    ((GetAllClientsMiddleware fault w).2.cache = w.cache ∨
      (GetAllClientsMiddleware fault w).2.cache =
        setCache "CLIENTES:ALL"
          (.list ((selectAllOrderByNome w.rows).map (fun r => (⟨r.1, r.2⟩ : ClientView))))
          w.cache) := by
  cases hc : getCache "CLIENTES:ALL" w.cache with
  | some v => simp [GetAllClientsMiddleware, hc]
  | none =>
    cases fault <;> simp [GetAllClientsMiddleware, hc, World.acquire, World.release]

/-- What `GetClientByCNPJMiddleware` does to the table and the cache. -/
theorem GetClientByCNPJMiddleware_effect (fault : Fault) (p : Option String) (w : World) :
    (GetClientByCNPJMiddleware fault p w).2.rows = w.rows ∧
    ((GetClientByCNPJMiddleware fault p w).2.cache = w.cache ∨
      ∃ k x xs, p = some k ∧ k ≠ "" ∧ whereCnpj k w.rows = x :: xs ∧
        (GetClientByCNPJMiddleware fault p w).2.cache =
          setCache ("CLIENTES:" ++ k) (.single ⟨x.cnpj, x.nome⟩) w.cache) := by
  by_cases hf : falsy p = true
  · simp [GetClientByCNPJMiddleware, hf]
  · cases p with
    | none => simp [falsy] at hf
    | some k =>
      have hk : k ≠ "" := by simpa [falsy] using hf
      cases hc : getCache ("CLIENTES:" ++ k) w.cache with
      | some v => simp [GetClientByCNPJMiddleware, hf, hc]
      | none =>
        cases hq : whereCnpj k w.rows with
        | nil =>
          cases fault <;>
            simp [GetClientByCNPJMiddleware, hf, hc, hq, World.acquire, World.release]
        | cons x xs =>
          cases fault <;>
            simp [GetClientByCNPJMiddleware, hf, hc, hq, World.acquire, World.release, hk]

/-- What `DeleteClientMiddleware` does to the table and the cache. -/
theorem DeleteClientMiddleware_effect (fault : Fault) (p : Option String) (w : World) :
    ((DeleteClientMiddleware fault p w).2.rows = w.rows ∧
      (DeleteClientMiddleware fault p w).2.cache = w.cache) ∨
    ∃ k, p = some k ∧ k ≠ "" ∧
      (DeleteClientMiddleware fault p w).2.rows = deleteWhereCnpj k w.rows ∧
      (DeleteClientMiddleware fault p w).2.cache =
        invalidateCache ("CLIENTES:" ++ k) (invalidateCache "CLIENTES:ALL" w.cache) := by
  by_cases hf : falsy p = true
  · simp [DeleteClientMiddleware, hf]
  · cases p with
    | none => simp [falsy] at hf
    | some k =>
      have hk : k ≠ "" := by simpa [falsy] using hf
      cases hq : whereCnpj k w.rows with
      | nil =>
        cases fault <;>
          simp [DeleteClientMiddleware, hf, hq, World.acquire, World.release]
      | cons x xs =>
        cases fault <;>
          simp [DeleteClientMiddleware, hf, hq, World.acquire, World.release, hk]

theorem mem_deleteWhereCnpj (k : String) (rows : List Row) (r : Row) :
    r ∈ deleteWhereCnpj k rows ↔ r ∈ rows ∧ r.cnpj ≠ k := by
  unfold deleteWhereCnpj
  simp

theorem mem_whereCnpj (k : String) (rows : List Row) (r : Row) :
    r ∈ whereCnpj k rows ↔ r ∈ rows ∧ r.cnpj = k := by
  unfold whereCnpj
  simp

theorem key_ne_all (k : String) (h : k ≠ "ALL") : "CLIENTES:" ++ k ≠ "CLIENTES:ALL" :=
  fun h2 => h ((key_all k).1 h2)

theorem CacheCoherent_init : CacheCoherent World.init := by
  refine ⟨?_, ?_⟩ <;> simp [World.init, getCache]

theorem step_coherent (enc : Encoder) (c : Call × Fault) (w : World) (h : CacheCoherent w) :
    CacheCoherent (step enc w c).2 := by
  obtain ⟨h1, h2⟩ := h
  rcases c with ⟨c, f⟩
  cases c with
  | register body =>
    simp only [step]
    rcases AddClientMiddleware_effect enc f body w with ⟨hr, hc⟩ | ⟨c, n, _, habs, hr, hc⟩
    · rw [CacheCoherent, hr, hc]
      exact ⟨h1, h2⟩
    · have hnew : ∀ r ∈ w.rows, r.cnpj ≠ trim c := (whereCnpj_eq_nil_iff _ _).1 habs
      rw [CacheCoherent, hr, hc]
      constructor
      · intro r1 hr1 r2 hr2 he
        rw [List.mem_append, List.mem_singleton] at hr1 hr2
        rcases hr1 with hr1 | rfl <;> rcases hr2 with hr2 | rfl
        · exact h1 r1 hr1 r2 hr2 he
        · exact absurd he (hnew r1 hr1)
        · exact absurd he.symm (hnew r2 hr2)
        · rfl
      · intro k v hk hv
        rw [getCache_invalidate] at hv
        split_ifs at hv with hkc
        rw [getCache_invalidate, if_neg (key_ne_all k hk)] at hv
        obtain ⟨r, hrm, hrk, hrv⟩ := h2 k v hk hv
        exact ⟨r, List.mem_append_left _ hrm, hrk, hrv⟩
  | listAll =>
    simp only [step]
    obtain ⟨hr, hc⟩ := GetAllClientsMiddleware_effect f w
    rcases hc with hc | hc
    · rw [CacheCoherent, hr, hc]
      exact ⟨h1, h2⟩
    · rw [CacheCoherent, hr, hc]
      refine ⟨h1, ?_⟩
      intro k v hk hv
      rw [getCache_setCache, if_neg (key_ne_all k hk)] at hv
      exact h2 k v hk hv
  | getByCNPJ p =>
    simp only [step]
    obtain ⟨hr, hc⟩ := GetClientByCNPJMiddleware_effect f p w
    rcases hc with hc | ⟨q, x, xs, _, _, hx, hc⟩
    · rw [CacheCoherent, hr, hc]
      exact ⟨h1, h2⟩
    · rw [CacheCoherent, hr, hc]
      refine ⟨h1, ?_⟩
      intro k v hk hv
      rw [getCache_setCache] at hv
      split_ifs at hv with hkq
      · have hxm : x ∈ whereCnpj q w.rows := by rw [hx]; exact List.mem_cons_self _ _
        rw [mem_whereCnpj] at hxm
        have hkq2 : k = q := (key_inj k q).1 hkq
        simp only [Option.some.injEq] at hv
        exact ⟨x, hxm.1, hxm.2.trans hkq2.symm, hv.symm⟩
      · exact h2 k v hk hv
  | delete p =>
    simp only [step]
    rcases DeleteClientMiddleware_effect f p w with ⟨hr, hc⟩ | ⟨q, _, _, hr, hc⟩
    · rw [CacheCoherent, hr, hc]
      exact ⟨h1, h2⟩
    · rw [CacheCoherent, hr, hc]
      constructor
      · intro r1 hr1 r2 hr2 he
        rw [mem_deleteWhereCnpj] at hr1 hr2
        exact h1 r1 hr1.1 r2 hr2.1 he
      · intro k v hk hv
        rw [getCache_invalidate] at hv
        split_ifs at hv with hkq
        rw [getCache_invalidate, if_neg (key_ne_all k hk)] at hv
        obtain ⟨r, hrm, hrk, hrv⟩ := h2 k v hk hv
        refine ⟨r, (mem_deleteWhereCnpj q w.rows r).2 ⟨hrm, ?_⟩, hrk, hrv⟩
        intro hq
        exact hkq (by rw [← hrk, hq])

theorem run_coherent (enc : Encoder) (calls : List (Call × Fault)) (w : World)
    (h : CacheCoherent w) : CacheCoherent (run enc w calls).2 := by
  induction calls generalizing w with
  | nil => exact h
  | cons c cs ih => exact ih _ (step_coherent enc c w h)

/-- A row stays in the table as long as no deletion of its cnpj is requested. -/
theorem step_keeps_row (enc : Encoder) (c : Call × Fault) (w : World) (r : Row)
    (hr : r ∈ w.rows) (hc : c.1 ≠ .delete (some r.cnpj)) : r ∈ (step enc w c).2.rows := by
  rcases c with ⟨c, f⟩
  cases c with
  | register body =>
    simp only [step]
    rcases AddClientMiddleware_effect enc f body w with ⟨h, _⟩ | ⟨_, _, _, _, h, _⟩
    · rw [h]; exact hr
    · rw [h]; exact List.mem_append_left _ hr
  | listAll =>
    simp only [step]
    rw [(GetAllClientsMiddleware_effect f w).1]; exact hr
  | getByCNPJ p =>
    simp only [step]
    rw [(GetClientByCNPJMiddleware_effect f p w).1]; exact hr
  | delete p =>
    simp only [step]
    rcases DeleteClientMiddleware_effect f p w with ⟨h, _⟩ | ⟨q, hq, _, h, _⟩
    · rw [h]; exact hr
    · rw [h, mem_deleteWhereCnpj]
      refine ⟨hr, ?_⟩
      intro hk
      apply hc
      simp only at hq ⊢
      rw [hq, hk]

theorem run_keeps_row (enc : Encoder) (calls : List (Call × Fault)) (w : World) (r : Row)
    (hr : r ∈ w.rows) (hc : ∀ c ∈ calls, c.1 ≠ .delete (some r.cnpj)) :
    r ∈ (run enc w calls).2.rows := by
  induction calls generalizing w with
  | nil => exact hr
  | cons c cs ih =>
    exact ih _ (step_keeps_row enc c w r hr (hc c (List.mem_cons_self _ _)))
      (fun d hd => hc d (List.mem_cons_of_mem _ hd))

theorem run_append (enc : Encoder) (w : World) (xs ys : List (Call × Fault)) :
    (run enc w (xs ++ ys)).2 = (run enc (run enc w xs).2 ys).2 := by
  induction xs generalizing w with
  | nil => rfl
  | cons c cs ih => exact ih _

/-- In a coherent world, a cnpj other than `""` and `"ALL"` that has a row is
answered 200 with the object of that row. -/
theorem GetClientByCNPJMiddleware_coherent (w : World) (h : CacheCoherent w) (r : Row)
    (hr : r ∈ w.rows) (hne : r.cnpj ≠ "") (hall : r.cnpj ≠ "ALL") :
    (GetClientByCNPJMiddleware .none (some r.cnpj) w).1 =
      ⟨200, .json (.single ⟨r.cnpj, r.nome⟩)⟩ := by
  obtain ⟨h1, h2⟩ := h
  have hf : falsy (some r.cnpj) = false := by simp [falsy, hne]
  cases hc : getCache ("CLIENTES:" ++ r.cnpj) w.cache with
  | some v =>
    obtain ⟨x, hxm, hxk, hxv⟩ := h2 r.cnpj v hall hc
    have : x = r := h1 x hxm r hr hxk
    subst this
    simp [GetClientByCNPJMiddleware, hf, hc, hxv]
  | none =>
    cases hq : whereCnpj r.cnpj w.rows with
    | nil =>
      have := (whereCnpj_eq_nil_iff r.cnpj w.rows).1 hq r hr
      exact absurd rfl this
    | cons x xs =>
      have hxm : x ∈ whereCnpj r.cnpj w.rows := by rw [hq]; exact List.mem_cons_self _ _
      rw [mem_whereCnpj] at hxm
      have : x = r := h1 x hxm.1 r hr hxm.2
      subst this
      simp [GetClientByCNPJMiddleware, hf, hc, hq, World.acquire, World.release]

/-- Supporting fact for C1: outside the two failing cases (a cnpj that trims
to `""` or to `"ALL"`), the claim holds. Serve any requests from the empty
world, then a registration answered 201, then any requests none of which is
a deletion of that cnpj; `GetClientByCNPJMiddleware` on the trimmed cnpj, the
store not failing, answers 200 with the trimmed cnpj and nome. -/
theorem get_after_register (enc : Encoder) (before after : List (Call × Fault))
    (fault : Fault) (c n : String)
    (h201 : (step enc (run enc World.init before).2
      (.register ⟨some c, some n⟩, fault)).1.status = 201)
    (hkept : ∀ d ∈ after, d.1 ≠ .delete (some (trim c)))
    (hne : trim c ≠ "") (hall : trim c ≠ "ALL") :
    (GetClientByCNPJMiddleware .none (some (trim c))
      (run enc World.init
        (before ++ (.register ⟨some c, some n⟩, fault) :: after)).2).1 =
      ⟨200, .json (.single ⟨trim c, trim n⟩)⟩ := by
  have hrun : (run enc World.init (before ++ (.register ⟨some c, some n⟩, fault) :: after)).2
      = (run enc (step enc (run enc World.init before).2
          (.register ⟨some c, some n⟩, fault)).2 after).2 := by
    rw [run_append]; rfl
  have hcoh : CacheCoherent (run enc World.init
      (before ++ (.register ⟨some c, some n⟩, fault) :: after)).2 :=
    run_coherent enc _ _ CacheCoherent_init
  simp only [step] at h201 hrun
  obtain ⟨c2, n2, hb, _, _, _, heq⟩ := AddClientMiddleware_201 enc fault _ _ h201
  simp only [ReqBody.mk.injEq, Option.some.injEq] at hb
  obtain ⟨rfl, rfl⟩ := hb
  have hrow : (⟨trim c, trim n, enc.encryptedAt (run enc World.init before).2.draws⟩ : Row) ∈
      (run enc World.init (before ++ (.register ⟨some c, some n⟩, fault) :: after)).2.rows := by
    rw [hrun]
    apply run_keeps_row
    · rw [heq]
      simp [Encoder.encryptedAt]
    · exact hkept
  exact GetClientByCNPJMiddleware_coherent _ hcoh _ hrow hne hall

theorem formatted_without (p : String) (rows : List Row) (h : ∀ r ∈ rows, r.cnpj ≠ p) :
    ∀ x ∈ (selectAllOrderByNome rows).map (fun r => (⟨r.1, r.2⟩ : ClientView)),
      x.cnpj ≠ p := by
  intro x hx
  rw [List.mem_map] at hx
  obtain ⟨y, hy, rfl⟩ := hx
  unfold selectAllOrderByNome at hy
  rw [(List.perm_insertionSort _ _).mem_iff, List.mem_map] at hy
  obtain ⟨r, hr, rfl⟩ := hy
  exact h r hr

theorem DeleteClientMiddleware_200 (fault : Fault) (p : String) (w : World)
    (h : (DeleteClientMiddleware fault (some p) w).1.status = 200) :
    p ≠ "" ∧ DeletedView p (DeleteClientMiddleware fault (some p) w).2 := by
  by_cases hf : falsy (some p) = true
  · simp [DeleteClientMiddleware, hf] at h
  · have hp : p ≠ "" := by simpa [falsy] using hf
    refine ⟨hp, ?_⟩
    cases hq : whereCnpj p w.rows with
    | nil =>
      cases fault <;>
        simp [DeleteClientMiddleware, hf, hq, World.acquire, World.release] at h
    | cons x xs =>
      cases fault <;>
        simp [DeleteClientMiddleware, hf, hq, World.acquire, World.release] at h
      simp only [DeleteClientMiddleware, hf, Bool.false_eq_true, if_false, Option.getD_some,
        World.acquire, hq, List.map_cons, reduceCtorEq, World.release]
      refine ⟨?_, getCache_invalidate_self _ _, ?_⟩
      · intro r hr
        exact ((mem_deleteWhereCnpj p w.rows r).1 hr).2
      · intro v hv
        rw [getCache_invalidate_twice] at hv
        simp at hv

theorem step_deletedView (enc : Encoder) (p : String) (hall : p ≠ "ALL") (c : Call × Fault)
    (w : World) (hread : c.1.isRead = true) (hc : c.1 ≠ .getByCNPJ (some "ALL"))
    (h : DeletedView p w) : DeletedView p (step enc w c).2 := by
  obtain ⟨h1, h2, h3⟩ := h
  rcases c with ⟨c, f⟩
  cases c with
  | register body => simp [Call.isRead] at hread
  | delete q => simp [Call.isRead] at hread
  | listAll =>
    simp only [step]
    obtain ⟨hr, hca⟩ := GetAllClientsMiddleware_effect f w
    rcases hca with hca | hca
    · rw [DeletedView, hr, hca]
      exact ⟨h1, h2, h3⟩
    · rw [DeletedView, hr, hca]
      refine ⟨h1, ?_, ?_⟩
      · rw [getCache_setCache, if_neg (key_ne_all p hall)]
        exact h2
      · intro v hv
        rw [getCache_setCache_self] at hv
        simp only [Option.some.injEq] at hv
        exact ⟨_, hv.symm, formatted_without p w.rows h1⟩
  | getByCNPJ q =>
    simp only [step]
    obtain ⟨hr, hca⟩ := GetClientByCNPJMiddleware_effect f q w
    rcases hca with hca | ⟨k, x, xs, hqk, _, hx, hca⟩
    · rw [DeletedView, hr, hca]
      exact ⟨h1, h2, h3⟩
    · have hxm : x ∈ whereCnpj k w.rows := by rw [hx]; exact List.mem_cons_self _ _
      rw [mem_whereCnpj] at hxm
      have hkp : p ≠ k := fun hpk => h1 x hxm.1 (hxm.2.trans hpk.symm)
      have hkall : k ≠ "ALL" := by
        intro hk
        apply hc
        simp only at hqk ⊢
        rw [hqk, hk]
      rw [DeletedView, hr, hca]
      refine ⟨h1, ?_, ?_⟩
      · rw [getCache_setCache, if_neg (fun hk => hkp ((key_inj p k).1 hk))]
        exact h2
      · intro v hv
        rw [getCache_setCache, if_neg (fun hk => key_ne_all k hkall hk.symm)] at hv
        exact h3 v hv

theorem run_deletedView (enc : Encoder) (p : String) (hall : p ≠ "ALL")
    (reads : List (Call × Fault)) (w : World)
    (hreads : ∀ c ∈ reads, c.1.isRead = true ∧ c.1 ≠ .getByCNPJ (some "ALL"))
    (h : DeletedView p w) : DeletedView p (run enc w reads).2 := by
  induction reads generalizing w with
  | nil => exact h
  | cons c cs ih =>
    have hc := hreads c (List.mem_cons_self _ _)
    exact ih _ (fun d hd => hreads d (List.mem_cons_of_mem _ hd))
      (step_deletedView enc p hall c w hc.1 hc.2 h)

/-- Supporting fact for C3: outside the failing case (the cnpj `"ALL"`, as the
deleted cnpj or as the argument of a read in between), the claim holds. After
a deletion of `p` answered 200 and any reads, under any faults,
`GetClientByCNPJMiddleware` on `p` answers 404 and `GetAllClientsMiddleware`
answers 200 with a list without `p`, the store not failing. -/
theorem reads_after_delete (enc : Encoder) (fault : Fault) (p : String) (w : World)
    (reads : List (Call × Fault))
    (h200 : (DeleteClientMiddleware fault (some p) w).1.status = 200)
    (hall : p ≠ "ALL")
    (hreads : ∀ c ∈ reads, c.1.isRead = true ∧ c.1 ≠ .getByCNPJ (some "ALL")) :
    (GetClientByCNPJMiddleware .none (some p)
      (run enc (DeleteClientMiddleware fault (some p) w).2 reads).2).1 =
        ⟨404, .error "Cliente não encontrado"⟩ ∧
    ∃ l, (GetAllClientsMiddleware .none
      (run enc (DeleteClientMiddleware fault (some p) w).2 reads).2).1 =
        ⟨200, .json (.list l)⟩ ∧ ∀ x ∈ l, x.cnpj ≠ p := by
  obtain ⟨hp, hview⟩ := DeleteClientMiddleware_200 fault p w h200
  obtain ⟨h1, h2, h3⟩ := run_deletedView enc p hall reads _ hreads hview
  have hf : falsy (some p) = false := by simp [falsy, hp]
  have hq := (whereCnpj_eq_nil_iff p _).2 h1
  constructor
  · simp [GetClientByCNPJMiddleware, hf, h2, hq, World.acquire, World.release]
  · cases hc : getCache "CLIENTES:ALL"
        (run enc (DeleteClientMiddleware fault (some p) w).2 reads).2.cache with
    | some v =>
      obtain ⟨l, rfl, hl⟩ := h3 v hc
      exact ⟨l, by simp [GetAllClientsMiddleware, hc], hl⟩
    | none =>
      exact ⟨_, by simp [GetAllClientsMiddleware, hc, World.acquire, World.release],
        formatted_without p _ h1⟩

/-- Supporting fact for C9: when no call on the store throws, each handler
leaves as many connections open as it found. -/
theorem connections_released_without_fault (enc : Encoder) (body : ReqBody)
    (p : Option String) (w : World) :
    (AddClientMiddleware enc .none body w).2.openConns = w.openConns ∧
    (GetAllClientsMiddleware .none w).2.openConns = w.openConns ∧
    (GetClientByCNPJMiddleware .none p w).2.openConns = w.openConns ∧
    (DeleteClientMiddleware .none p w).2.openConns = w.openConns := by
  refine ⟨?_, ?_, ?_, ?_⟩
  · by_cases hm : falsy body.cnpj = true ∨ falsy body.nome = true
    · rw [AddClientMiddleware_missing enc .none body w hm]
    · obtain ⟨c, n, rfl, hc, hn⟩ := (not_falsy_iff body).1 hm
      rw [AddClientMiddleware_present enc .none c n w hc hn]
      simp only [reduceCtorEq, if_false]
      split_ifs <;> rfl
  · cases hc : getCache "CLIENTES:ALL" w.cache with
    | some v => simp [GetAllClientsMiddleware, hc]
    | none => simp [GetAllClientsMiddleware, hc, World.acquire, World.release]
  · by_cases hf : falsy p = true
    · simp [GetClientByCNPJMiddleware, hf]
    · cases hc : getCache ("CLIENTES:" ++ p.getD "") w.cache with
      | some v => simp [GetClientByCNPJMiddleware, hf, hc]
      | none =>
        cases hq : whereCnpj (p.getD "") w.rows with
        | nil => simp [GetClientByCNPJMiddleware, hf, hc, hq, World.acquire, World.release]
        | cons x xs =>
          simp [GetClientByCNPJMiddleware, hf, hc, hq, World.acquire, World.release]
  · by_cases hf : falsy p = true
    · simp [DeleteClientMiddleware, hf]
    · cases hq : whereCnpj (p.getD "") w.rows with
      | nil => simp [DeleteClientMiddleware, hf, hq, World.acquire, World.release]
      | cons x xs => simp [DeleteClientMiddleware, hf, hq, World.acquire, World.release]

/-- Supporting fact for C2: for a cnpj other than `"ALL"`, the two reads also
reflect the new client when they are chained after the registration, in
either order. -/
theorem register_then_chained_reads (enc : Encoder) (fault : Fault) (cnpj nome : String)
    (w : World) (hc : trim cnpj = cnpj) (hn : trim nome = nome) (hall : cnpj ≠ "ALL")
    (h201 : (AddClientMiddleware enc fault ⟨some cnpj, some nome⟩ w).1.status = 201) :
    (GetClientByCNPJMiddleware .none (some cnpj)
        (GetAllClientsMiddleware .none
          (AddClientMiddleware enc fault ⟨some cnpj, some nome⟩ w).2).2).1 =
      ⟨200, .json (.single ⟨cnpj, nome⟩)⟩ ∧
    ∃ l, (GetAllClientsMiddleware .none
        (GetClientByCNPJMiddleware .none (some cnpj)
          (AddClientMiddleware enc fault ⟨some cnpj, some nome⟩ w).2).2).1 =
        ⟨200, .json (.list l)⟩ ∧ (⟨cnpj, nome⟩ : ClientView) ∈ l := by
  obtain ⟨c, n, hb, hc0, hn0, habs, heq⟩ := AddClientMiddleware_201 enc fault _ w h201
  simp only [ReqBody.mk.injEq, Option.some.injEq] at hb
  obtain ⟨rfl, rfl⟩ := hb
  rw [heq, hc, hn] at *
  have hk : "CLIENTES:" ++ cnpj ≠ "CLIENTES:ALL" := key_ne_all cnpj hall
  have hmissAll : getCache "CLIENTES:ALL" (invalidateCache ("CLIENTES:" ++ cnpj)
      (invalidateCache "CLIENTES:ALL" w.cache)) = none := getCache_invalidate_twice _ _ _
  have hmiss : getCache ("CLIENTES:" ++ cnpj) (invalidateCache ("CLIENTES:" ++ cnpj)
      (invalidateCache "CLIENTES:ALL" w.cache)) = none := getCache_invalidate_self _ _
  have hfalsy : falsy (some cnpj) = false := by simp [falsy, hc0]
  have hsel : whereCnpj cnpj (w.rows ++ [⟨cnpj, nome,
      enc.encrypt w.draws (enc.generateSecretWithSalt w.draws)⟩]) = [⟨cnpj, nome,
      enc.encrypt w.draws (enc.generateSecretWithSalt w.draws)⟩] := by
    unfold whereCnpj at habs ⊢
    rw [List.filter_append, habs]
    simp
  constructor
  · simp [GetClientByCNPJMiddleware, GetAllClientsMiddleware, hfalsy, hmissAll, hmiss,
      World.acquire, World.release, hsel, getCache_setCache, hk]
  · refine ⟨(selectAllOrderByNome (w.rows ++ [⟨cnpj, nome,
      enc.encrypt w.draws (enc.generateSecretWithSalt w.draws)⟩])).map
        (fun r => (⟨r.1, r.2⟩ : ClientView)), ?_, ?_⟩
    · simp [GetClientByCNPJMiddleware, GetAllClientsMiddleware, hfalsy, hmissAll, hmiss,
        World.acquire, World.release, hsel, getCache_setCache, hk.symm]
    · have hm := mem_selectAllOrderByNome (w.rows ++ [⟨cnpj, nome,
        enc.encrypt w.draws (enc.generateSecretWithSalt w.draws)⟩]) ⟨cnpj, nome,
        enc.encrypt w.draws (enc.generateSecretWithSalt w.draws)⟩ (by simp)
      exact List.mem_map_of_mem (fun r => (⟨r.1, r.2⟩ : ClientView)) hm

end ClientMiddleware
